import Mathlib

/-!
Shallow embedding of the dungeon-map core of `roguelike-rs` (src/map/map.rs),
together with proofs of the specified properties.

Machine-integer conventions:
* Rust `i32` values are embedded as `Int`; the casts `as usize` and `as i32`
  that appear in the source are modelled exactly (`usizeOfInt`, `i32OfNat`,
  `wrapI32`), since the behaviour of `position_of`, `index_of` and the tunnel
  clamp depends on them.
* Rust `usize` arithmetic on indices is modelled as `Nat` arithmetic modulo
  `2 ^ 64` (`usizeAdd`, `usizeSub`).
* Rust `/` and `%` on `i32` truncate toward zero: they are embedded as
  `Int.tdiv` / `Int.tmod`.
* The `f32` cost constants `1.0` / `1.45` and the colour channels are embedded
  as the exact rationals they denote (all the literals appearing in the source
  are exactly representable).
* A Rust operation that can panic (out-of-range `Vec` indexing on write,
  an empty random range) is embedded as an `Option`-returning function.
-/

/-- The modulus of Rust `usize` arithmetic (64-bit target). -/
def USIZE : Nat := 2 ^ 64

/-- Rust `x as usize` for an `i32` value `x`: sign extension, i.e. reduction
modulo `2 ^ 64`. -/
def usizeOfInt (n : Int) : Nat := (n % (USIZE : Int)).toNat

/-- Wrapping `usize` addition. -/
def usizeAdd (a b : Nat) : Nat := (a + b) % USIZE

/-- Wrapping `usize` subtraction (for operands below `2 ^ 64`). -/
def usizeSub (a b : Nat) : Nat := (a + (USIZE - b % USIZE)) % USIZE

/-- Rust `n as i32` for a `usize` value `n`: truncation to the low 32 bits,
reinterpreted as a signed value. -/
def i32OfNat (n : Nat) : Int :=
  let r : Nat := n % 2 ^ 32
  if r < 2 ^ 31 then (r : Int) else (r : Int) - 2 ^ 32

/-- Wrapping `i32` arithmetic result (release-profile semantics), used for the
`(width * height) as usize` computation. -/
def wrapI32 (n : Int) : Int := (n + 2 ^ 31) % 2 ^ 32 - 2 ^ 31

/-- The inclusive integer range `lo ..= hi` of a Rust `for` loop, as a list. -/
def intRange (lo hi : Int) : List Int :=
  (List.range (hi + 1 - lo).toNat).map (fun (k : Nat) => lo + (k : Int))

/-- `TileType` from src/map/map.rs. -/
inductive TileType where
  | Wall : TileType
  | Floor : TileType
deriving DecidableEq, Repr

/-- `Position` component (a pair of `i32` coordinates). -/
structure Position where
  x : Int
  y : Int
deriving DecidableEq, Repr

/-- Modelled from the spec: the `Room` value type of src/map/room.rs (the file
itself is not in the sources; only its caller src/map/map.rs is).  Per the
spec, a `Room` holds a `first` (top-left) and `second` corner. -/
structure Room where
  first : Position
  second : Position
deriving DecidableEq, Repr

/-- Modelled from the spec: `Room::new(top_left, width, height)` constructs
with `second = top_left + (width - 1, height - 1)`. -/
def Room.new (top_left : Position) (width height : Int) : Room :=
  { first := top_left
    second := { x := top_left.x + width - 1, y := top_left.y + height - 1 } }

/-- Modelled from the spec: two rooms overlap iff
`self.first.x ≤ other.second.x && self.second.x ≥ other.first.x &&
self.first.y ≤ other.second.y && self.second.y ≥ other.first.y`. -/
def Room.intersect (self other : Room) : Bool :=
  self.first.x ≤ other.second.x && self.second.x ≥ other.first.x &&
  self.first.y ≤ other.second.y && self.second.y ≥ other.first.y

/-- Modelled from the spec: `Room::center()` is the integer midpoint of the
two corners, integer division biased toward `first` (Rust `i32` division
truncates toward zero). -/
def Room.center (self : Room) : Position :=
  { x := Int.tdiv (self.first.x + self.second.x) 2
    y := Int.tdiv (self.first.y + self.second.y) 2 }

/-- Modelled from the spec: the injected random generator.  The spec treats
randomness as an external collaborator offering `range(min, max)` (a value in
`[min, max)`) and `roll_dice(n, sides)` (a sum of `n` rolls in `[1, sides]`).
A generator is an arbitrary stream of raw draws plus a cursor; each primitive
consumes one draw and reduces it into the requested interval, failing (as the
real library does) when the interval is empty. -/
structure RandomNumberGenerator where
  stream : Nat → Nat
  pos : Nat

/-- Modelled from the spec: `range(min, max)` returns a value in `[min, max)`,
failing when the interval is empty. -/
def RandomNumberGenerator.range (rng : RandomNumberGenerator) (lo hi : Int) :
    Option (Int × RandomNumberGenerator) :=
  if lo < hi then
    some (lo + (rng.stream rng.pos : Int) % (hi - lo),
      { rng with pos := rng.pos + 1 })
  else none

/-- Modelled from the spec: the recursive summation behind `roll_dice`:
each die is a `range(1, sides + 1)` draw. -/
def RandomNumberGenerator.rollDiceGo (sides : Int) :
    Nat → RandomNumberGenerator → Option (Int × RandomNumberGenerator)
  | 0, rng => some (0, rng)
  | n + 1, rng => do
    let (v, rng1) ← rng.range 1 (sides + 1)
    let (rest, rng2) ← RandomNumberGenerator.rollDiceGo sides n rng1
    some (v + rest, rng2)

/-- Modelled from the spec: `roll_dice(n, sides)`, the sum of `n` dice each in
`[1, sides]`. -/
def RandomNumberGenerator.roll_dice (rng : RandomNumberGenerator) (n sides : Int) :
    Option (Int × RandomNumberGenerator) :=
  RandomNumberGenerator.rollDiceGo sides n.toNat rng

/-- The `Map` aggregate of src/map/map.rs.  Entities are external handles;
they are embedded as bare numeric identifiers. -/
structure Map where
  width : Int
  height : Int
  tiles : List TileType
  rooms : List Room
  blocked_tiles : List Bool
  entities : List (List Nat)
deriving DecidableEq, Repr

/-- `Map::index_of`: `(y as usize * self.width as usize) + x as usize`. -/
def Map.index_of (m : Map) (x y : Int) : Nat :=
  (usizeOfInt y * usizeOfInt m.width + usizeOfInt x) % USIZE

/-- `Map::position_of`: `(index as i32 % self.width, index as i32 / self.width)`. -/
def Map.position_of (m : Map) (index : Nat) : Int × Int :=
  (Int.tmod (i32OfNat index) m.width, Int.tdiv (i32OfNat index) m.width)

/-- `Map::starting_position`: `self.rooms[0].center()`; indexing an empty
room list panics, embedded as `none`. -/
def Map.starting_position (m : Map) : Option Position :=
  match m.rooms with
  | [] => none
  | room :: _ => some room.center

/-- `Map::is_in_bound`. -/
def Map.is_in_bound (m : Map) (x y : Int) : Bool :=
  x ≥ 0 && x < m.width && y ≥ 0 && y < m.height

/-- `Map::is_opaque` (from the `BaseMap` implementation):
`self.tiles[index] == TileType::Wall`.  In-range reads are the only ones the
program performs; an out-of-range read is given the default `Wall`. -/
def Map.is_opaque (m : Map) (index : Nat) : Bool :=
  m.tiles.getD index TileType.Wall == TileType.Wall

/-- `Map::is_exit_valid`. -/
def Map.is_exit_valid (m : Map) (x y : Int) : Bool :=
  if !m.is_in_bound x y then false
  else !m.blocked_tiles.getD (m.index_of x y) true

/-- `Map::update_blocked_tiles`: for every tile index,
`blocked_tiles[index] = is_opaque(index)`. -/
def Map.update_blocked_tiles (m : Map) : Map :=
  { m with
    blocked_tiles :=
      (List.range m.tiles.length).foldl
        (fun bt index => bt.set index (m.is_opaque index)) m.blocked_tiles }

/-- `Map::clear_entities`. -/
def Map.clear_entities (m : Map) : Map :=
  { m with entities := m.entities.map (fun _ => []) }

/-- Writing one tile through `Vec` indexing: panics (`none`) out of range. -/
def setTileChecked (tiles : List TileType) (index : Nat) (t : TileType) :
    Option (List TileType) :=
  if index < tiles.length then some (tiles.set index t) else none

/-- `Map::add_room`: carve `first.y+1 ..= second.y` × `first.x+1 ..= second.x`
to `Floor`, row by row. -/
def Map.add_room (m : Map) (room : Room) : Option Map := do
  let tiles ←
    (intRange (room.first.y + 1) room.second.y).foldlM (fun tiles y =>
      (intRange (room.first.x + 1) room.second.x).foldlM (fun tiles x =>
        setTileChecked tiles (m.index_of x y) TileType.Floor) tiles) m.tiles
  some { m with tiles := tiles }

/-- The guarded carve of the tunnel loops: write `Floor` at each listed index
that satisfies `index > 0 && index < map_size`. -/
def carveGuarded (tiles : List TileType) (map_size : Nat) (idxs : List Nat) :
    List TileType :=
  idxs.foldl
    (fun tiles index =>
      if 0 < index ∧ index < map_size then tiles.set index TileType.Floor
      else tiles) tiles

/-- `Map::add_horizontal_tunnel`. -/
def Map.add_horizontal_tunnel (m : Map) (x1 x2 y : Int) : Map :=
  let map_size := usizeOfInt (wrapI32 (m.width * m.height))
  { m with
    tiles := carveGuarded m.tiles map_size
      ((intRange (min x1 x2) (max x1 x2)).map (fun x => m.index_of x y)) }

/-- `Map::add_vertical_tunnel`. -/
def Map.add_vertical_tunnel (m : Map) (y1 y2 x : Int) : Map :=
  let map_size := usizeOfInt (wrapI32 (m.width * m.height))
  { m with
    tiles := carveGuarded m.tiles map_size
      ((intRange (min y1 y2) (max y1 y2)).map (fun y => m.index_of x y)) }

/-- `Map::is_placement_valid`: no intersection with any already placed room. -/
def Map.is_placement_valid (m : Map) (room : Room) : Bool :=
  m.rooms.all (fun other => !room.intersect other)

/-- `Map::link_rooms_with_tunnels`: connect the new room's center to the last
accepted room's center with an L-shaped tunnel, the orientation chosen by a
coin flip.  Indexing `rooms[len - 1]` on an empty list panics (`none`). -/
def Map.link_rooms_with_tunnels (m : Map) (new_room : Room)
    (rng : RandomNumberGenerator) : Option (Map × RandomNumberGenerator) := do
  let new_room_center := new_room.center
  let previous_room ← m.rooms.getLast?
  let previous_room_center := previous_room.center
  let (coin, rng1) ← rng.range 0 2
  if coin == 1 then
    some ((m.add_horizontal_tunnel previous_room_center.x new_room_center.x
            previous_room_center.y).add_vertical_tunnel
            previous_room_center.y new_room_center.y new_room_center.x, rng1)
  else
    some ((m.add_vertical_tunnel previous_room_center.y new_room_center.y
            previous_room_center.x).add_horizontal_tunnel
            previous_room_center.x new_room_center.x new_room_center.y, rng1)

/-- The body of `Map::new`'s attempt loop, iterated `MAX_ROOMS = 30` times. -/
def Map.newLoop : Nat → Map → RandomNumberGenerator → Option Map
  | 0, m, _ => some m
  | n + 1, m, rng => do
    let (room_width, rng1) ← rng.range 6 10
    let (room_height, rng2) ← rng1.range 6 10
    let (xr, rng3) ← rng2.roll_dice 1 (m.width - room_width - 1)
    let (yr, rng4) ← rng3.roll_dice 1 (m.height - room_height - 1)
    let x := xr - 1
    let y := yr - 1
    let new_room := Room.new { x := x, y := y } room_width room_height
    if m.is_placement_valid new_room then do
      let ma ← m.add_room new_room
      let (mb, rng5) ←
        if !ma.rooms.isEmpty then ma.link_rooms_with_tunnels new_room rng4
        else some (ma, rng4)
      Map.newLoop n { mb with rooms := mb.rooms ++ [new_room] } rng5
    else
      Map.newLoop n m rng4

/-- `Map::new(width, height)`: an all-`Wall`, all-blocked grid of
`(width * height) as usize` tiles, then 30 placement attempts. -/
def Map.new (width height : Int) (rng : RandomNumberGenerator) : Option Map :=
  let map_size := usizeOfInt (wrapI32 (width * height))
  Map.newLoop 30
    { width := width
      height := height
      tiles := List.replicate map_size TileType.Wall
      rooms := []
      blocked_tiles := List.replicate map_size true
      entities := List.replicate map_size [] } rng

/-- `BaseMap::get_available_exits`: the four cardinal neighbours at cost
`1.0`, then the four diagonal neighbours at cost `1.45`, filtered by
`is_exit_valid`; the pushed indices use wrapping `usize` arithmetic as in the
source. -/
def Map.get_available_exits (m : Map) (index : Nat) : List (Nat × Rat) :=
  let pos := m.position_of index
  let x := pos.1
  let y := pos.2
  let width := usizeOfInt m.width
  (if m.is_exit_valid (x - 1) y then [(usizeSub index 1, (1 : Rat))] else []) ++
  (if m.is_exit_valid (x + 1) y then [(usizeAdd index 1, (1 : Rat))] else []) ++
  (if m.is_exit_valid x (y - 1) then [(usizeSub index width, (1 : Rat))] else []) ++
  (if m.is_exit_valid x (y + 1) then [(usizeAdd index width, (1 : Rat))] else []) ++
  (if m.is_exit_valid (x - 1) (y - 1) then [(usizeSub (usizeSub index width) 1, (1.45 : Rat))] else []) ++
  (if m.is_exit_valid (x + 1) (y - 1) then [(usizeAdd (usizeSub index width) 1, (1.45 : Rat))] else []) ++
  (if m.is_exit_valid (x - 1) (y + 1) then [(usizeSub (usizeAdd index width) 1, (1.45 : Rat))] else []) ++
  (if m.is_exit_valid (x + 1) (y + 1) then [(usizeAdd (usizeAdd index width) 1, (1.45 : Rat))] else [])

/-- Modelled from the spec: the external display colour type (the rendering
surface is an external collaborator).  `from_f32` constructs a colour from
its channels; `to_greyscale` is the desaturation operation, kept abstract as
a free constructor. -/
inductive RGBColor where
  | from_f32 (r g b : Rat) : RGBColor
  | greyscale (base : RGBColor) : RGBColor
deriving DecidableEq, Repr

/-- Modelled from the spec: `RGB::to_greyscale()`. -/
def RGBColor.to_greyscale (c : RGBColor) : RGBColor := RGBColor.greyscale c

/-- Modelled from the spec: a `Viewshed` is an external per-actor record of
revealed and currently visible tile indices. -/
structure Viewshed where
  revealed_tiles : List Bool
  visible_tiles : List Bool
deriving DecidableEq, Repr

/-- One `context.set(x, y, foreground, background, glyph)` write emitted by
`Map::draw`.  Glyphs are cp437 codes (`to_cp437('.') = 46`,
`to_cp437('#') = 35`). -/
structure DrawCall where
  x : Int
  y : Int
  foreground : RGBColor
  background : RGBColor
  glyph : Nat
deriving DecidableEq, Repr

/-- The tile loop of `Map::draw` for one viewshed: walk the tiles in storage
order keeping the `(x, y)` cursor of the source, emitting a call for each
revealed tile. -/
def Map.drawTilesGo (m : Map) (viewshed : Viewshed) :
    List TileType → Nat → Int → Int → List DrawCall
  | [], _, _, _ => []
  | tile :: rest, index, x, y =>
    let calls :=
      if viewshed.revealed_tiles.getD index false then
        let glyph : Nat :=
          match tile with
          | TileType.Floor => 46
          | TileType.Wall => 35
        let foreground :=
          match tile with
          | TileType.Floor => RGBColor.from_f32 0 (1/2) (1/2)
          | TileType.Wall => RGBColor.from_f32 0 1 0
        let foreground :=
          if !viewshed.visible_tiles.getD index false then foreground.to_greyscale
          else foreground
        [{ x := x, y := y, foreground := foreground,
           background := RGBColor.from_f32 0 0 0, glyph := glyph }]
      else []
    let x1 := x + 1
    let next := if x1 > m.width - 1 then (0, y + 1) else (x1, y)
    calls ++ m.drawTilesGo viewshed rest (index + 1) next.1 next.2

/-- `Map::draw`: one full tile pass per viewshed found in the world, each
starting from cursor `(0, 0)`. -/
def Map.draw (m : Map) (viewsheds : List Viewshed) : List DrawCall :=
  viewsheds.flatMap (fun viewshed => m.drawTilesGo viewshed m.tiles 0 0 0)

/-- `BaseMap::get_pathing_distance`: Euclidean distance between the two cells,
embedded as its square over the rationals (the source value is the square
root of this quantity; the map only forwards the library's computation). -/
def Map.get_pathing_distance_sq (m : Map) (from_index to_index : Nat) : Rat :=
  let width := usizeOfInt m.width
  let fx : Int := (from_index % width : Nat)
  let fy : Int := (from_index / width : Nat)
  let tx : Int := (to_index % width : Nat)
  let ty : Int := (to_index / width : Nat)
  ((fx - tx) ^ 2 + (fy - ty) ^ 2 : Int)

/-- The flattened row-major list of tile indices `add_room` writes. -/
def roomIdxs (m : Map) (room : Room) : List Nat :=
  (intRange (room.first.y + 1) room.second.y).flatMap (fun y =>
    (intRange (room.first.x + 1) room.second.x).map (fun x => m.index_of x y))

/-- Checked sequential `Floor` writes: the combined effect of `add_room`'s
nested loops on the tile list. -/
def setFloorAllChecked (tiles : List TileType) (idxs : List Nat) :
    Option (List TileType) :=
  idxs.foldlM (fun tiles index => setTileChecked tiles index TileType.Floor) tiles

/-- A tile read used by the connectivity statements: the tile at grid
coordinates `(x, y)` is carved `Floor`. -/
def floorAt (m : Map) (x y : Int) : Prop :=
  m.tiles[m.index_of x y]? = some TileType.Floor

/-- A horizontal carved run at fixed row `yy` spanning the inclusive
`x`-interval between `x1` and `x2`. -/
def HRun (m : Map) (x1 x2 yy : Int) : Prop :=
  ∀ x : Int, min x1 x2 ≤ x → x ≤ max x1 x2 → floorAt m x yy

/-- A vertical carved run at fixed column `xx` spanning the inclusive
`y`-interval between `y1` and `y2`. -/
def VRun (m : Map) (y1 y2 xx : Int) : Prop :=
  ∀ y : Int, min y1 y2 ≤ y → y ≤ max y1 y2 → floorAt m xx y

/-- Two centers are joined by an L-shaped tunnel: one horizontal run at a
single fixed row and one vertical run at a single fixed column, in one of the
two corner orientations the generator can choose. -/
def LConnected (m : Map) (c1 c2 : Position) : Prop :=
  (HRun m c1.x c2.x c1.y ∧ VRun m c1.y c2.y c2.x) ∨
  (VRun m c1.y c2.y c1.x ∧ HRun m c1.x c2.x c2.y)

/-- The geometry every accepted room satisfies: it fits strictly inside the
grid with the sampled margins (top-left nonnegative, span at least 5, and a
margin of 3 from the high edges). -/
def RoomInGrid (w h : Int) (room : Room) : Prop :=
  0 ≤ room.first.x ∧ room.first.x + 5 ≤ room.second.x ∧ room.second.x ≤ w - 3 ∧
  0 ≤ room.first.y ∧ room.first.y + 5 ≤ room.second.y ∧ room.second.y ≤ h - 3

/-- The generation-loop invariant: sane dimensions, a full tile grid,
pairwise non-intersecting in-grid rooms, and consecutively accepted rooms
joined by L-shaped carved tunnels. -/
def MapInv (m : Map) : Prop :=
  0 ≤ m.width ∧ 0 ≤ m.height ∧ m.width * m.height < 2 ^ 31 ∧
  m.tiles.length = (m.width * m.height).toNat ∧
  m.rooms.Pairwise (fun a b => a.intersect b = false) ∧
  (∀ room ∈ m.rooms, RoomInGrid m.width m.height room) ∧
  m.rooms.Chain' (fun a b => LConnected m a.center b.center)

/-- Modelled from the spec: the glyph the draw projection selects per tile
(`.` for Floor, `#` for Wall, as cp437 codes). -/
def tileGlyph : TileType → Nat
  | TileType.Floor => 46
  | TileType.Wall => 35

/-- Modelled from the spec: the saturated base colour the draw projection
selects per tile. -/
def tileBaseColor : TileType → RGBColor
  | TileType.Floor => RGBColor.from_f32 0 (1 / 2) (1 / 2)
  | TileType.Wall => RGBColor.from_f32 0 1 0

/-- Modelled from the spec: the draw call the projection is specified to emit
for a revealed tile `i`: screen coordinates `position_of(i)`, glyph and base
colour chosen by the tile type alone, and the foreground desaturated exactly
when the tile is not currently visible. -/
def drawCallSpec (m : Map) (viewshed : Viewshed) (i : Nat) (tile : TileType) :
    DrawCall :=
  { x := (m.position_of i).1
    y := (m.position_of i).2
    foreground :=
      if viewshed.visible_tiles.getD i false then tileBaseColor tile
      else (tileBaseColor tile).to_greyscale
    background := RGBColor.from_f32 0 0 0
    glyph := tileGlyph tile }

/-- A concrete random stream: draw 6 of attempt 2 is 10, everything else 0.
On a 20×8 grid it produces two accepted rooms linked by one tunnel. -/
def rngW : RandomNumberGenerator := ⟨fun n => if n = 6 then 10 else 0, 0⟩

/-- A degenerate map value, used as a fallback and as the empty-rooms case. -/
def defaultMap : Map := ⟨0, 0, [], [], [], []⟩

/-- The concrete generated 20×8 map used by the witnesses. -/
def mapW : Map := (Map.new 20 8 rngW).getD defaultMap

/-- `mapW` with its blocked cache refreshed. -/
def mapWB : Map := mapW.update_blocked_tiles

/-- A map whose dimensions overflow the `index as i32` truncation in
`position_of`. -/
def bigMap : Map := ⟨65536, 65536, [], [], [], []⟩

/-- A concrete 2×2 map for the draw-projection witness. -/
def mapD : Map :=
  ⟨2, 2, [TileType.Wall, TileType.Floor, TileType.Floor, TileType.Wall], [],
    [true, false, false, true], [[], [], [], []]⟩

/-- A concrete viewshed for the draw-projection witness: tile 1 is revealed
and visible, tile 2 revealed but not visible, tiles 0 and 3 unrevealed. -/
def viewshedD : Viewshed := ⟨[false, true, true, false], [false, true, false, false]⟩

/-- A blank 8×8 all-Wall map used by the room-carving witness. -/
def mapBlank : Map :=
  ⟨8, 8, List.replicate 64 TileType.Wall, [], List.replicate 64 true,
    List.replicate 64 []⟩

/-- A concrete room on `mapBlank`. -/
def roomD : Room := ⟨{ x := 1, y := 1 }, { x := 6, y := 6 }⟩

/-- `mapBlank` with `roomD` carved. -/
def mapBlankRoom : Map := (mapBlank.add_room roomD).getD defaultMap

/-! ### Arithmetic helper lemmas -/

theorem usize_pos : 0 < USIZE := by norm_num [USIZE]

theorem usizeOfInt_eq_toNat {n : Int} (h0 : 0 ≤ n) (h1 : n < (USIZE : Int)) :
    usizeOfInt n = n.toNat := by
  have hU : (USIZE : Int) = 2 ^ 64 := by norm_num [USIZE]
  unfold usizeOfInt
  rw [hU] at h1 ⊢
  omega

theorem wrapI32_eq {n : Int} (h0 : -(2 ^ 31) ≤ n) (h1 : n < 2 ^ 31) :
    wrapI32 n = n := by
  unfold wrapI32
  omega

theorem i32OfNat_eq {n : Nat} (h : n < 2 ^ 31) : i32OfNat n = (n : Int) := by
  unfold i32OfNat
  simp only []
  omega

theorem intRange_mem {lo hi a : Int} : a ∈ intRange lo hi ↔ lo ≤ a ∧ a ≤ hi := by
  unfold intRange
  constructor
  · intro h
    rcases List.mem_map.mp h with ⟨k, hk, hak⟩
    rw [List.mem_range] at hk
    omega
  · intro h
    refine List.mem_map.mpr ⟨(a - lo).toNat, ?_, ?_⟩
    · rw [List.mem_range]
      omega
    · omega

theorem index_of_eq (m : Map) {x y : Int} (hx : 0 ≤ x) (hy : 0 ≤ y)
    (hw : 0 ≤ m.width) (hxb : x < 2 ^ 31) (hyb : y < 2 ^ 31)
    (hwb : m.width ≤ 2 ^ 31) : m.index_of x y = (y * m.width + x).toNat := by
  unfold Map.index_of
  have hU : (USIZE : Int) = 2 ^ 64 := by norm_num [USIZE]
  rw [usizeOfInt_eq_toNat hy (by omega), usizeOfInt_eq_toNat hw (by omega),
    usizeOfInt_eq_toNat hx (by omega)]
  have hyw : y.toNat * m.width.toNat ≤ 2 ^ 31 * 2 ^ 31 :=
    Nat.mul_le_mul (by omega) (by omega)
  have hmul : (y.toNat * m.width.toNat : Int) = y * m.width := by
    rw [Int.toNat_of_nonneg hy, Int.toNat_of_nonneg hw]
  have hsmall : y.toNat * m.width.toNat + x.toNat < USIZE := by
    have : (2 : Nat) ^ 31 * 2 ^ 31 + 2 ^ 31 < USIZE := by norm_num [USIZE]
    omega
  rw [Nat.mod_eq_of_lt hsmall]
  omega

theorem index_of_lt (m : Map) {x y : Int} (hx : 0 ≤ x) (hxw : x < m.width)
    (hy : 0 ≤ y) (hyh : y < m.height) (hw : 0 < m.width) (hh : 0 < m.height)
    (hsz : m.width * m.height < 2 ^ 31) :
    m.index_of x y = (y * m.width + x).toNat ∧
      m.index_of x y < (m.width * m.height).toNat := by
  have hwb : m.width ≤ 2 ^ 31 := by nlinarith
  have hhb : m.height ≤ 2 ^ 31 := by nlinarith
  have h1 : y * m.width + x < m.width * m.height := by nlinarith
  have h2 : 0 ≤ y * m.width := by positivity
  refine ⟨index_of_eq m hx hy (by omega) (by omega) (by omega) hwb, ?_⟩
  rw [index_of_eq m hx hy (by omega) (by omega) (by omega) hwb]
  omega

theorem index_inj {w x x' y y' : Int} (hx : 0 ≤ x) (hxw : x < w)
    (hx' : 0 ≤ x') (hxw' : x' < w) (_hy : 0 ≤ y) (_hy' : 0 ≤ y')
    (heq : y * w + x = y' * w + x') : x = x' ∧ y = y' := by
  rcases lt_trichotomy y y' with h | h | h
  · exfalso
    have : y * w + w ≤ y' * w := by nlinarith
    omega
  · subst h
    omega
  · exfalso
    have : y' * w + w ≤ y * w := by nlinarith
    omega

/-! ### List write helper lemmas -/

theorem carveGuarded_cons (tiles : List TileType) (ms j : Nat) (rest : List Nat) :
    carveGuarded tiles ms (j :: rest) =
      carveGuarded (if 0 < j ∧ j < ms then tiles.set j TileType.Floor else tiles)
        ms rest := by
  unfold carveGuarded
  simp only [List.foldl_cons]

theorem carveGuarded_length (ms : Nat) (idxs : List Nat) (tiles : List TileType) :
    (carveGuarded tiles ms idxs).length = tiles.length := by
  induction idxs generalizing tiles with
  | nil => rfl
  | cons j rest ih =>
    rw [carveGuarded_cons, ih]
    by_cases hj : (0 : Nat) < j ∧ j < ms <;> simp [hj]

theorem carveGuarded_not_mem (ms : Nat) {idxs : List Nat} {i : Nat}
    (h : i ∉ idxs) (tiles : List TileType) :
    (carveGuarded tiles ms idxs)[i]? = tiles[i]? := by
  induction idxs generalizing tiles with
  | nil => rfl
  | cons j rest ih =>
    have hj : j ≠ i := fun hji => h (hji ▸ List.mem_cons_self j rest)
    rw [carveGuarded_cons, ih (fun hm => h (List.mem_cons_of_mem _ hm))]
    by_cases hg : (0 : Nat) < j ∧ j < ms
    · rw [if_pos hg, List.getElem?_set, if_neg hj]
    · rw [if_neg hg]

theorem carveGuarded_floor_mono (ms : Nat) (idxs : List Nat) {i : Nat}
    {tiles : List TileType} (h : tiles[i]? = some TileType.Floor) :
    (carveGuarded tiles ms idxs)[i]? = some TileType.Floor := by
  induction idxs generalizing tiles with
  | nil => exact h
  | cons j rest ih =>
    rw [carveGuarded_cons]
    refine ih ?_
    by_cases hg : (0 : Nat) < j ∧ j < ms
    · rw [if_pos hg, List.getElem?_set]
      by_cases hj : j = i
      · subst hj
        have hlt : j < tiles.length := by
          by_contra hlt
          rw [List.getElem?_eq_none (by omega)] at h
          exact Option.noConfusion h
        rw [if_pos rfl, if_pos hlt]
      · rw [if_neg hj]
        exact h
    · rw [if_neg hg]
      exact h

theorem carveGuarded_mem (ms : Nat) {idxs : List Nat} {i : Nat}
    (hmem : i ∈ idxs) (h0 : 0 < i) (hms : i < ms) (tiles : List TileType)
    (hlen : i < tiles.length) :
    (carveGuarded tiles ms idxs)[i]? = some TileType.Floor := by
  induction idxs generalizing tiles with
  | nil => exact absurd hmem (List.not_mem_nil i)
  | cons j rest ih =>
    rw [carveGuarded_cons]
    rcases List.mem_cons.mp hmem with hji | hmem2
    · subst hji
      rw [if_pos ⟨h0, hms⟩]
      refine carveGuarded_floor_mono ms rest ?_
      rw [List.getElem?_set, if_pos rfl, if_pos hlen]
    · by_cases hg : (0 : Nat) < j ∧ j < ms
      · rw [if_pos hg]
        exact ih hmem2 _ (by simpa using hlen)
      · rw [if_neg hg]
        exact ih hmem2 _ hlen

theorem carveGuarded_changed (ms : Nat) {idxs : List Nat} {i : Nat}
    {tiles : List TileType}
    (h : (carveGuarded tiles ms idxs)[i]? ≠ tiles[i]?) :
    i ∈ idxs ∧ 0 < i ∧ i < ms ∧
      (carveGuarded tiles ms idxs)[i]? = some TileType.Floor := by
  induction idxs generalizing tiles with
  | nil => exact absurd rfl h
  | cons j rest ih =>
    rw [carveGuarded_cons] at h ⊢
    by_cases hg : (0 : Nat) < j ∧ j < ms
    · rw [if_pos hg] at h ⊢
      by_cases hchg : (carveGuarded (tiles.set j TileType.Floor) ms rest)[i]? =
          (tiles.set j TileType.Floor)[i]?
      · have hset : (tiles.set j TileType.Floor)[i]? ≠ tiles[i]? := by
          rw [← hchg]
          exact h
        rw [List.getElem?_set] at hset
        by_cases hj : j = i
        · subst hj
          by_cases hlt : j < tiles.length
          · refine ⟨List.mem_cons_self _ _, hg.1, hg.2, ?_⟩
            rw [hchg, List.getElem?_set, if_pos rfl, if_pos hlt]
          · rw [if_pos rfl, if_neg hlt, List.getElem?_eq_none (by omega)] at hset
            exact absurd rfl hset
        · rw [if_neg hj] at hset
          exact absurd rfl hset
      · rcases ih hchg with ⟨hm, h0, hms, hfl⟩
        exact ⟨List.mem_cons_of_mem _ hm, h0, hms, hfl⟩
    · rw [if_neg hg] at h ⊢
      rcases ih h with ⟨hm, h0, hms, hfl⟩
      exact ⟨List.mem_cons_of_mem _ hm, h0, hms, hfl⟩

set_option maxRecDepth 1000000

theorem position_of_eq (m : Map) {index : Nat} (hw : 0 < m.width)
    (hfit : (index : Int) < 2 ^ 31) :
    m.position_of index = ((index : Int) % m.width, (index : Int) / m.width) := by
  unfold Map.position_of
  rw [i32OfNat_eq (by omega)]
  rw [Int.tmod_eq_emod (by positivity) (le_of_lt hw),
    Int.tdiv_eq_ediv (by positivity) (le_of_lt hw)]

theorem map_size_eq (m : Map) (h0 : 0 ≤ m.width * m.height)
    (h1 : m.width * m.height < 2 ^ 31) :
    usizeOfInt (wrapI32 (m.width * m.height)) = (m.width * m.height).toNat := by
  rw [wrapI32_eq (by omega) h1]
  refine usizeOfInt_eq_toNat h0 ?_
  have hU : ((USIZE : Nat) : Int) = 2 ^ 64 := by norm_num [USIZE]
  omega

theorem setRange_length (f : Nat → Bool) :
    ∀ (n : Nat) (bt : List Bool),
      ((List.range n).foldl (fun bt index => bt.set index (f index)) bt).length =
        bt.length
  | 0, bt => rfl
  | n + 1, bt => by
    rw [List.range_succ, List.foldl_append, List.foldl_cons, List.foldl_nil,
      List.length_set, setRange_length f n bt]

theorem setRange_getElem? (f : Nat → Bool) :
    ∀ (n : Nat) (bt : List Bool) (i : Nat),
      ((List.range n).foldl (fun bt index => bt.set index (f index)) bt)[i]? =
        if i < n ∧ i < bt.length then some (f i) else bt[i]?
  | 0, bt, i => by simp
  | n + 1, bt, i => by
    rw [List.range_succ, List.foldl_append, List.foldl_cons, List.foldl_nil,
      List.getElem?_set, setRange_length f n bt]
    by_cases hni : n = i
    · subst hni
      rw [if_pos rfl]
      by_cases hl : n < bt.length
      · rw [if_pos hl, if_pos ⟨by omega, hl⟩]
      · rw [if_neg hl, if_neg (by omega), List.getElem?_eq_none (by omega)]
    · rw [if_neg hni, setRange_getElem? f n bt i]
      by_cases hc : i < n ∧ i < bt.length
      · rw [if_pos hc, if_pos ⟨by omega, hc.2⟩]
      · rw [if_neg hc, if_neg (by omega)]

/-- C5: after a call to `update_blocked_tiles()`, for every index `i` below
the tile count, `blocked_tiles[i]` equals `is_opaque(i)`, which is true iff
`tiles[i] == Wall`. -/
theorem update_blocked_tiles_spec (m : Map) (i : Nat)
    (hlen : m.blocked_tiles.length = m.tiles.length)
    (hi : i < m.tiles.length) :
    (m.update_blocked_tiles).blocked_tiles[i]? = some (m.is_opaque i) ∧
    ((m.update_blocked_tiles).blocked_tiles[i]? = some true ↔
      m.tiles[i]? = some TileType.Wall) := by
  have h : (m.update_blocked_tiles).blocked_tiles[i]? = some (m.is_opaque i) := by
    have hrw : (m.update_blocked_tiles).blocked_tiles =
        (List.range m.tiles.length).foldl
          (fun bt index => bt.set index (m.is_opaque index)) m.blocked_tiles := rfl
    rw [hrw, setRange_getElem?, if_pos ⟨hi, by omega⟩]
  refine ⟨h, ?_⟩
  rw [h, List.getElem?_eq_getElem hi]
  unfold Map.is_opaque
  rw [List.getD_eq_getElem _ _ hi]
  simp [beq_iff_eq]

/-- Witness for C5 at the generated 20×8 map and tile index 21 (a carved
Floor tile). -/
theorem update_blocked_tiles_spec_witness :
    mapW.update_blocked_tiles.blocked_tiles[21]? = some (mapW.is_opaque 21) :=
  (update_blocked_tiles_spec mapW 21 (by decide) (by decide)).1

/-- C6: `add_horizontal_tunnel` and `add_vertical_tunnel` change tiles only
at indices `i` with `0 < i < width * height`, and any changed tile is set to
`Floor`; in particular tile index 0 is never carved by a tunnel and no write
lands at or past `width * height`. -/
theorem tunnel_writes_clamped (m : Map) (a b c : Int) (i : Nat)
    (h0 : 0 ≤ m.width * m.height) (h1 : m.width * m.height < 2 ^ 31) :
    ((m.add_horizontal_tunnel a b c).tiles[i]? ≠ m.tiles[i]? →
      0 < i ∧ (i : Int) < m.width * m.height ∧
      (m.add_horizontal_tunnel a b c).tiles[i]? = some TileType.Floor) ∧
    ((m.add_vertical_tunnel a b c).tiles[i]? ≠ m.tiles[i]? →
      0 < i ∧ (i : Int) < m.width * m.height ∧
      (m.add_vertical_tunnel a b c).tiles[i]? = some TileType.Floor) := by
  constructor
  · intro h
    have hrw : (m.add_horizontal_tunnel a b c).tiles =
        carveGuarded m.tiles (usizeOfInt (wrapI32 (m.width * m.height)))
          ((intRange (min a b) (max a b)).map (fun x => m.index_of x c)) := rfl
    rw [hrw] at h ⊢
    rcases carveGuarded_changed _ h with ⟨_, hpos, hms, hfl⟩
    rw [map_size_eq m h0 h1] at hms
    exact ⟨hpos, by omega, hfl⟩
  · intro h
    have hrw : (m.add_vertical_tunnel a b c).tiles =
        carveGuarded m.tiles (usizeOfInt (wrapI32 (m.width * m.height)))
          ((intRange (min a b) (max a b)).map (fun y => m.index_of c y)) := rfl
    rw [hrw] at h ⊢
    rcases carveGuarded_changed _ h with ⟨_, hpos, hms, hfl⟩
    rw [map_size_eq m h0 h1] at hms
    exact ⟨hpos, by omega, hfl⟩

/-- Witness for C6 on a concrete 2×2 map: the horizontal carve at row 1
changes tile 3, which lies strictly between 0 and `width * height`. -/
theorem tunnel_writes_clamped_witness :
    0 < 3 ∧ ((3 : Nat) : Int) < mapD.width * mapD.height ∧
      (mapD.add_horizontal_tunnel 0 1 1).tiles[3]? = some TileType.Floor :=
  (tunnel_writes_clamped mapD 0 1 1 3 (by decide) (by decide)).1 (by decide)

/-- C10: `starting_position()` returns the center of `rooms[0]` whenever the
room list is non-empty, and fails (the `rooms[0]` indexing panics) when the
room list is empty. -/
theorem starting_position_spec :
    (∀ (m : Map) (room : Room), m.rooms.head? = some room →
      m.starting_position = some room.center) ∧
    (∀ m : Map, m.rooms = [] → m.starting_position = none) := by
  constructor
  · intro m room h
    unfold Map.starting_position
    cases hm : m.rooms with
    | nil => rw [hm] at h; cases h
    | cons r rest =>
      rw [hm] at h
      rw [List.head?_cons] at h
      injection h with h
      rw [h]
  · intro m h
    unfold Map.starting_position
    rw [h]

/-- Witness for C10: the generated 20×8 map starts at the first room's
center (2, 2); the empty map yields no starting position. -/
theorem starting_position_spec_witness :
    mapW.starting_position = some { x := 2, y := 2 } ∧
    defaultMap.starting_position = none := by
  constructor
  · have h := starting_position_spec.1 mapW
      { first := { x := 0, y := 0 }, second := { x := 5, y := 5 } } (by decide)
    rw [h]
    decide
  · exact starting_position_spec.2 defaultMap rfl

/-- C9 (counterexample): on a 65536×65536 map the coordinates (65535, 65535)
are in bound, yet `position_of (index_of x y)` is not `(x, y)`: the linear
index 2^32 - 1 truncates to -1 in the `index as i32` cast. -/
theorem position_of_index_of_overflow_cex :
    ((0 : Int) ≤ 65535 ∧ (65535 : Int) < bigMap.width ∧
      (0 : Int) ≤ 65535 ∧ (65535 : Int) < bigMap.height) ∧
    bigMap.position_of (bigMap.index_of 65535 65535) ≠ (65535, 65535) := by
  constructor
  · exact ⟨by decide, by decide, by decide, by decide⟩
  · decide

/-- C9 (amended): for all in-bound `(x, y)` whose row-major linear index
`y * width + x` fits in `i32`, `position_of (index_of x y) = (x, y)`. -/
theorem position_of_index_of_roundtrip (m : Map) (x y : Int)
    (hx0 : 0 ≤ x) (hxw : x < m.width) (hy0 : 0 ≤ y) (hyh : y < m.height)
    (hfit : y * m.width + x < 2 ^ 31) :
    m.position_of (m.index_of x y) = (x, y) := by
  have hw : 0 < m.width := by omega
  have hU : ((USIZE : Nat) : Int) = 2 ^ 64 := by norm_num [USIZE]
  have hU2 : (2 : Nat) ^ 31 < USIZE := by norm_num [USIZE]
  have hidx : m.index_of x y = (y * m.width + x).toNat := by
    rcases Nat.eq_zero_or_pos y.toNat with h0 | hpos
    · have hy : y = 0 := by omega
      subst hy
      unfold Map.index_of
      have h1 : usizeOfInt 0 = 0 := by simp [usizeOfInt]
      rw [h1, usizeOfInt_eq_toNat hx0 (by omega), Nat.zero_mul, Nat.zero_add,
        Nat.mod_eq_of_lt (by omega)]
      omega
    · have hy1 : 1 ≤ y := by omega
      have hwy : m.width ≤ y * m.width := by nlinarith
      have hwlt : m.width < 2 ^ 31 := by nlinarith
      exact index_of_eq m hx0 hy0 (by omega) (by omega) (by nlinarith) (by omega)
  rw [hidx]
  have hmul : 0 ≤ y * m.width := mul_nonneg hy0 (le_of_lt hw)
  have hnn : 0 ≤ y * m.width + x := by omega
  rw [position_of_eq m hw (by rw [Int.toNat_of_nonneg hnn]; omega)]
  have hdm := (Int.ediv_emod_unique hw).mpr
    (⟨by ring, hx0, hxw⟩ : x + m.width * y = y * m.width + x ∧ 0 ≤ x ∧ x < m.width)
  rw [Int.toNat_of_nonneg hnn, hdm.1, hdm.2]

/-- Witness for the amended C9 at the generated 20×8 map and (3, 2). -/
theorem position_of_index_of_roundtrip_witness :
    mapW.position_of (mapW.index_of 3 2) = (3, 2) :=
  position_of_index_of_roundtrip mapW 3 2 (by decide) (by decide) (by decide)
    (by decide) (by decide)

theorem setFloorAllChecked_nil (tiles : List TileType) :
    setFloorAllChecked tiles [] = some tiles := rfl

theorem setFloorAllChecked_cons (tiles : List TileType) (j : Nat) (rest : List Nat) :
    setFloorAllChecked tiles (j :: rest) =
      (setTileChecked tiles j TileType.Floor).bind
        (fun t => setFloorAllChecked t rest) := by
  unfold setFloorAllChecked
  rw [List.foldlM_cons]
  rfl

theorem setFloorAllChecked_append (as bs : List Nat) (tiles : List TileType) :
    setFloorAllChecked tiles (as ++ bs) =
      (setFloorAllChecked tiles as).bind (fun t => setFloorAllChecked t bs) := by
  unfold setFloorAllChecked
  rw [List.foldlM_append]
  rfl

theorem setFloorAllChecked_length :
    ∀ (idxs : List Nat) (tiles t2 : List TileType),
      setFloorAllChecked tiles idxs = some t2 → t2.length = tiles.length
  | [], tiles, t2, h => by
    rw [setFloorAllChecked_nil] at h
    injection h with h
    rw [h]
  | j :: rest, tiles, t2, h => by
    rw [setFloorAllChecked_cons] at h
    unfold setTileChecked at h
    by_cases hj : j < tiles.length
    · rw [if_pos hj, Option.some_bind] at h
      rw [setFloorAllChecked_length rest _ t2 h, List.length_set]
    · rw [if_neg hj, Option.none_bind] at h
      cases h

theorem setFloorAllChecked_isSome :
    ∀ (idxs : List Nat) (tiles : List TileType),
      (∀ j ∈ idxs, j < tiles.length) → ∃ t2, setFloorAllChecked tiles idxs = some t2
  | [], tiles, _ => ⟨tiles, rfl⟩
  | j :: rest, tiles, h => by
    rw [setFloorAllChecked_cons]
    unfold setTileChecked
    rw [if_pos (h j (List.mem_cons_self j rest)), Option.some_bind]
    exact setFloorAllChecked_isSome rest _
      (fun i hi => by
        rw [List.length_set]
        exact h i (List.mem_cons_of_mem _ hi))

theorem setFloorAllChecked_not_mem :
    ∀ (idxs : List Nat) (tiles t2 : List TileType) (i : Nat),
      setFloorAllChecked tiles idxs = some t2 → i ∉ idxs → t2[i]? = tiles[i]?
  | [], tiles, t2, i, h, _ => by
    rw [setFloorAllChecked_nil] at h
    injection h with h
    rw [h]
  | j :: rest, tiles, t2, i, h, hmem => by
    rw [setFloorAllChecked_cons] at h
    unfold setTileChecked at h
    by_cases hj : j < tiles.length
    · rw [if_pos hj, Option.some_bind] at h
      rw [setFloorAllChecked_not_mem rest _ t2 i h
        (fun hm => hmem (List.mem_cons_of_mem _ hm))]
      rw [List.getElem?_set,
        if_neg (fun hji => hmem (by rw [← hji]; exact List.mem_cons_self j rest))]
    · rw [if_neg hj, Option.none_bind] at h
      cases h

theorem setFloorAllChecked_floor_mono :
    ∀ (idxs : List Nat) (tiles t2 : List TileType) (i : Nat),
      setFloorAllChecked tiles idxs = some t2 →
      tiles[i]? = some TileType.Floor → t2[i]? = some TileType.Floor
  | [], tiles, t2, i, h, hf => by
    rw [setFloorAllChecked_nil] at h
    injection h with h
    exact h ▸ hf
  | j :: rest, tiles, t2, i, h, hf => by
    rw [setFloorAllChecked_cons] at h
    unfold setTileChecked at h
    by_cases hj : j < tiles.length
    · rw [if_pos hj, Option.some_bind] at h
      refine setFloorAllChecked_floor_mono rest _ t2 i h ?_
      rw [List.getElem?_set]
      by_cases hji : j = i
      · rw [if_pos hji, if_pos hj]
      · rw [if_neg hji]
        exact hf
    · rw [if_neg hj, Option.none_bind] at h
      cases h

theorem setFloorAllChecked_mem :
    ∀ (idxs : List Nat) (tiles t2 : List TileType) (i : Nat),
      setFloorAllChecked tiles idxs = some t2 → i ∈ idxs →
      t2[i]? = some TileType.Floor
  | [], _, _, i, _, hmem => absurd hmem (List.not_mem_nil i)
  | j :: rest, tiles, t2, i, h, hmem => by
    rw [setFloorAllChecked_cons] at h
    unfold setTileChecked at h
    by_cases hj : j < tiles.length
    · rw [if_pos hj, Option.some_bind] at h
      rcases List.mem_cons.mp hmem with hji | hmem2
      · subst hji
        refine setFloorAllChecked_floor_mono rest _ t2 i h ?_
        rw [List.getElem?_set, if_pos rfl, if_pos hj]
      · exact setFloorAllChecked_mem rest _ t2 i h hmem2
    · rw [if_neg hj, Option.none_bind] at h
      cases h

theorem setFloorAllChecked_flatMap (g : Int → List Nat) :
    ∀ (ys : List Int) (tiles : List TileType),
      setFloorAllChecked tiles (ys.flatMap g) =
        ys.foldlM (fun tiles y => setFloorAllChecked tiles (g y)) tiles
  | [], tiles => rfl
  | y :: ys, tiles => by
    rw [List.flatMap_cons, setFloorAllChecked_append, List.foldlM_cons]
    cases h : setFloorAllChecked tiles (g y) with
    | none =>
      rw [Option.none_bind]
      rfl
    | some t =>
      rw [Option.some_bind]
      have : (some t >>= fun init =>
          List.foldlM (fun tiles y => setFloorAllChecked tiles (g y)) init ys) =
          List.foldlM (fun tiles y => setFloorAllChecked tiles (g y)) t ys := rfl
      rw [this]
      exact setFloorAllChecked_flatMap g ys t

theorem add_room_eq (m : Map) (room : Room) :
    m.add_room room = (setFloorAllChecked m.tiles (roomIdxs m room)).map
      (fun tiles => { m with tiles := tiles }) := by
  unfold Map.add_room roomIdxs
  rw [setFloorAllChecked_flatMap]
  have hrow : ∀ (y : Int) (tiles : List TileType),
      setFloorAllChecked tiles ((intRange (room.first.x + 1) room.second.x).map
        (fun x => m.index_of x y)) =
      (intRange (room.first.x + 1) room.second.x).foldlM
        (fun tiles x => setTileChecked tiles (m.index_of x y) TileType.Floor) tiles := by
    intro y tiles
    unfold setFloorAllChecked
    rw [List.foldlM_map]
  simp only [hrow]
  cases h : (intRange (room.first.y + 1) room.second.y).foldlM
      (fun tiles y => (intRange (room.first.x + 1) room.second.x).foldlM
        (fun tiles x => setTileChecked tiles (m.index_of x y) TileType.Floor) tiles)
      m.tiles <;> simp [h]

theorem roomIdxs_mem_iff (m : Map) (room : Room)
    (hw : 0 < m.width) (hh : 0 < m.height) (hsz : m.width * m.height < 2 ^ 31)
    {x y : Int} (hxb : 0 ≤ x) (hxw : x < m.width) (hyb : 0 ≤ y) (hyh : y < m.height)
    (hx0 : 0 ≤ room.first.x) (hx1 : room.second.x < m.width)
    (hy0 : 0 ≤ room.first.y) (hy1 : room.second.y < m.height) :
    (y * m.width + x).toNat ∈ roomIdxs m room ↔
      (room.first.x + 1 ≤ x ∧ x ≤ room.second.x ∧
       room.first.y + 1 ≤ y ∧ y ≤ room.second.y) := by
  unfold roomIdxs
  rw [List.mem_flatMap]
  constructor
  · rintro ⟨y', hy', hx'mem⟩
    rw [intRange_mem] at hy'
    rcases List.mem_map.mp hx'mem with ⟨x', hx', hidx⟩
    rw [intRange_mem] at hx'
    have hx'0 : 0 ≤ x' := by omega
    have hy'0 : 0 ≤ y' := by omega
    have hx'w : x' < m.width := by omega
    have hy'h : y' < m.height := by omega
    rw [(index_of_lt m hx'0 hx'w hy'0 hy'h hw hh hsz).1] at hidx
    have h1 : 0 ≤ y' * m.width + x' := by
      have := mul_nonneg hy'0 (le_of_lt hw)
      omega
    have h2 : 0 ≤ y * m.width + x := by
      have := mul_nonneg hyb (le_of_lt hw)
      omega
    have heq : y' * m.width + x' = y * m.width + x := by
      have hc := congrArg (fun n : Nat => (n : Int)) hidx
      simp only [Int.toNat_of_nonneg h1, Int.toNat_of_nonneg h2] at hc
      exact hc
    rcases index_inj hx'0 hx'w hxb hxw hy'0 hyb heq with ⟨hxx, hyy⟩
    omega
  · rintro ⟨h1, h2, h3, h4⟩
    refine ⟨y, intRange_mem.mpr ⟨by omega, by omega⟩, ?_⟩
    refine List.mem_map.mpr ⟨x, intRange_mem.mpr ⟨by omega, by omega⟩, ?_⟩
    exact (index_of_lt m hxb hxw hyb hyh hw hh hsz).1

/-- C7: `add_room` sets to `Floor` exactly the tiles with
`first.x + 1 ≤ x ≤ second.x` and `first.y + 1 ≤ y ≤ second.y`, leaving every
other tile unchanged — the stored rectangle is one row and one column larger
on the low side than the carved interior. -/
theorem add_room_carves_inset_rect (m : Map) (room : Room) (m2 : Map)
    (hw : 0 < m.width) (hh : 0 < m.height)
    (hsz : m.width * m.height < 2 ^ 31)
    (hx0 : 0 ≤ room.first.x) (hx1 : room.second.x < m.width)
    (hy0 : 0 ≤ room.first.y) (hy1 : room.second.y < m.height)
    (hsome : m.add_room room = some m2)
    (x y : Int) (hxb : 0 ≤ x) (hxw : x < m.width) (hyb : 0 ≤ y) (hyh : y < m.height) :
    m2.tiles[(y * m.width + x).toNat]? =
      if room.first.x + 1 ≤ x ∧ x ≤ room.second.x ∧
         room.first.y + 1 ≤ y ∧ y ≤ room.second.y
      then some TileType.Floor
      else m.tiles[(y * m.width + x).toNat]? := by
  rw [add_room_eq] at hsome
  cases hsf : setFloorAllChecked m.tiles (roomIdxs m room) with
  | none =>
    rw [hsf] at hsome
    cases hsome
  | some t2 =>
    rw [hsf] at hsome
    have hm2 : m2.tiles = t2 := by
      have : ({ m with tiles := t2 } : Map) = m2 := Option.some.inj hsome
      rw [← this]
    rw [hm2]
    by_cases hc : room.first.x + 1 ≤ x ∧ x ≤ room.second.x ∧
        room.first.y + 1 ≤ y ∧ y ≤ room.second.y
    · rw [if_pos hc]
      exact setFloorAllChecked_mem _ _ _ _ hsf
        ((roomIdxs_mem_iff m room hw hh hsz hxb hxw hyb hyh hx0 hx1 hy0 hy1).mpr hc)
    · rw [if_neg hc]
      exact setFloorAllChecked_not_mem _ _ _ _ hsf
        (fun hm => hc
          ((roomIdxs_mem_iff m room hw hh hsz hxb hxw hyb hyh hx0 hx1 hy0 hy1).mp hm))

/-- Witness for C7: carving the room (1,1)-(6,6) on a blank 8×8 map makes
tile (3, 2) Floor via the inset-rectangle rule. -/
theorem add_room_carves_inset_rect_witness :
    mapBlankRoom.tiles[((2 : Int) * mapBlank.width + 3).toNat]? =
      if roomD.first.x + 1 ≤ 3 ∧ (3 : Int) ≤ roomD.second.x ∧
         roomD.first.y + 1 ≤ 2 ∧ (2 : Int) ≤ roomD.second.y
      then some TileType.Floor
      else mapBlank.tiles[((2 : Int) * mapBlank.width + 3).toNat]? :=
  add_room_carves_inset_rect mapBlank roomD mapBlankRoom (by decide) (by decide)
    (by decide) (by decide) (by decide) (by decide) (by decide) (by rfl)
    3 2 (by decide) (by decide) (by decide) (by decide)

theorem is_exit_valid_iff (m : Map) (x y : Int) :
    m.is_exit_valid x y = true ↔
      (m.is_in_bound x y = true ∧
       m.blocked_tiles.getD (m.index_of x y) true = false) := by
  unfold Map.is_exit_valid
  cases hb : m.is_in_bound x y <;> simp [hb]

theorem usizeAdd_small {a b : Nat} (h : a + b < USIZE) : usizeAdd a b = a + b := by
  unfold usizeAdd USIZE at *
  omega

theorem usizeSub_small {a b : Nat} (ha : a < USIZE) (hba : b ≤ a) :
    usizeSub a b = a - b := by
  unfold usizeSub USIZE at *
  omega

theorem neighbor_index_spec (m : Map) {nx ny : Int}
    (hw : 0 < m.width) (hh : 0 < m.height) (hsz : m.width * m.height < 2 ^ 31)
    (hb : m.is_in_bound nx ny = true) :
    m.index_of nx ny = (ny * m.width + nx).toNat ∧
      m.index_of nx ny < (m.width * m.height).toNat := by
  unfold Map.is_in_bound at hb
  simp only [Bool.and_eq_true, decide_eq_true_eq] at hb
  obtain ⟨⟨⟨h1, h2⟩, h3⟩, h4⟩ := hb
  exact index_of_lt m h1 h2 h3 h4 hw hh hsz

theorem in_bound_arith (m : Map) {nx ny : Int} (h1 : 0 ≤ nx) (h2 : nx < m.width)
    (h3 : 0 ≤ ny) (h4 : ny < m.height) : m.is_in_bound nx ny = true := by
  unfold Map.is_in_bound
  simp only [Bool.and_eq_true, decide_eq_true_eq]
  exact ⟨⟨⟨h1, h2⟩, h3⟩, h4⟩

theorem in_bound_dest (m : Map) {nx ny : Int} (hb : m.is_in_bound nx ny = true) :
    0 ≤ nx ∧ nx < m.width ∧ 0 ≤ ny ∧ ny < m.height := by
  unfold Map.is_in_bound at hb
  simp only [Bool.and_eq_true, decide_eq_true_eq] at hb
  obtain ⟨⟨⟨h1, h2⟩, h3⟩, h4⟩ := hb
  exact ⟨h1, h2, h3, h4⟩

/-- C2: for every in-bound index on a map whose blocked cache has length
`width * height`, `get_available_exits` returns exactly those of the eight
neighbouring cells that are in bound and not blocked — the four cardinals at
cost 1.0 then the four diagonals at cost 1.45 — each paired with `index_of`
of that neighbour's coordinates (so the `usize` index arithmetic never
wraps), a diagonal's inclusion depending only on its own target tile; and on
a fully unblocked map an interior cell gets exactly eight exits with costs
1.0 ×4 and 1.45 ×4. -/
theorem get_available_exits_spec (m : Map) (index : Nat)
    (hw : 0 < m.width) (hh : 0 < m.height)
    (hsz : m.width * m.height < 2 ^ 31)
    (hbl : m.blocked_tiles.length = (m.width * m.height).toNat)
    (hi : index < (m.width * m.height).toNat) :
    (m.get_available_exits index =
      (if m.is_in_bound ((index : Int) % m.width - 1) ((index : Int) / m.width) = true ∧
          m.blocked_tiles.getD (m.index_of ((index : Int) % m.width - 1) ((index : Int) / m.width)) true = false
       then [(m.index_of ((index : Int) % m.width - 1) ((index : Int) / m.width), (1 : Rat))] else []) ++
      (if m.is_in_bound ((index : Int) % m.width + 1) ((index : Int) / m.width) = true ∧
          m.blocked_tiles.getD (m.index_of ((index : Int) % m.width + 1) ((index : Int) / m.width)) true = false
       then [(m.index_of ((index : Int) % m.width + 1) ((index : Int) / m.width), (1 : Rat))] else []) ++
      (if m.is_in_bound ((index : Int) % m.width) ((index : Int) / m.width - 1) = true ∧
          m.blocked_tiles.getD (m.index_of ((index : Int) % m.width) ((index : Int) / m.width - 1)) true = false
       then [(m.index_of ((index : Int) % m.width) ((index : Int) / m.width - 1), (1 : Rat))] else []) ++
      (if m.is_in_bound ((index : Int) % m.width) ((index : Int) / m.width + 1) = true ∧
          m.blocked_tiles.getD (m.index_of ((index : Int) % m.width) ((index : Int) / m.width + 1)) true = false
       then [(m.index_of ((index : Int) % m.width) ((index : Int) / m.width + 1), (1 : Rat))] else []) ++
      (if m.is_in_bound ((index : Int) % m.width - 1) ((index : Int) / m.width - 1) = true ∧
          m.blocked_tiles.getD (m.index_of ((index : Int) % m.width - 1) ((index : Int) / m.width - 1)) true = false
       then [(m.index_of ((index : Int) % m.width - 1) ((index : Int) / m.width - 1), (1.45 : Rat))] else []) ++
      (if m.is_in_bound ((index : Int) % m.width + 1) ((index : Int) / m.width - 1) = true ∧
          m.blocked_tiles.getD (m.index_of ((index : Int) % m.width + 1) ((index : Int) / m.width - 1)) true = false
       then [(m.index_of ((index : Int) % m.width + 1) ((index : Int) / m.width - 1), (1.45 : Rat))] else []) ++
      (if m.is_in_bound ((index : Int) % m.width - 1) ((index : Int) / m.width + 1) = true ∧
          m.blocked_tiles.getD (m.index_of ((index : Int) % m.width - 1) ((index : Int) / m.width + 1)) true = false
       then [(m.index_of ((index : Int) % m.width - 1) ((index : Int) / m.width + 1), (1.45 : Rat))] else []) ++
      (if m.is_in_bound ((index : Int) % m.width + 1) ((index : Int) / m.width + 1) = true ∧
          m.blocked_tiles.getD (m.index_of ((index : Int) % m.width + 1) ((index : Int) / m.width + 1)) true = false
       then [(m.index_of ((index : Int) % m.width + 1) ((index : Int) / m.width + 1), (1.45 : Rat))] else [])) ∧
    ((∀ b ∈ m.blocked_tiles, b = false) →
      1 ≤ (index : Int) % m.width → (index : Int) % m.width ≤ m.width - 2 →
      1 ≤ (index : Int) / m.width → (index : Int) / m.width ≤ m.height - 2 →
      (m.get_available_exits index).map Prod.snd =
        ([1, 1, 1, 1, 1.45, 1.45, 1.45, 1.45] : List Rat)) := by
  have hwh0 : 0 ≤ m.width * m.height := mul_nonneg hw.le hh.le
  have hiN : index < 2 ^ 31 := by omega
  have hw1h : m.width * 1 ≤ m.width * m.height :=
    mul_le_mul_of_nonneg_left hh hw.le
  have hw31 : m.width < 2 ^ 31 := by omega
  have hU64idx : index < USIZE := by unfold USIZE; omega
  have hU64add : index + m.width.toNat < USIZE := by unfold USIZE; omega
  have hr0 : 0 ≤ (index : Int) % m.width := Int.emod_nonneg _ (by omega)
  have hrw : (index : Int) % m.width < m.width := Int.emod_lt_of_pos _ hw
  have hq0 : 0 ≤ (index : Int) / m.width := Int.ediv_nonneg (by omega) hw.le
  have hiI : (index : Int) < m.width * m.height := by omega
  have hqh : (index : Int) / m.width < m.height := by
    rw [Int.ediv_lt_iff_lt_mul hw]
    exact hiI.trans_le (le_of_eq (mul_comm _ _))
  have hdm0 := Int.ediv_add_emod (index : Int) m.width
  obtain ⟨p, hp⟩ : ∃ p, m.width * ((index : Int) / m.width) = p := ⟨_, rfl⟩
  have hdm : p + (index : Int) % m.width = (index : Int) := by
    rw [← hp]
    exact hdm0
  have hp0 : 0 ≤ p := by
    rw [← hp]
    exact mul_nonneg hw.le hq0
  have hUcast : ((USIZE : Nat) : Int) = 2 ^ 64 := by norm_num [USIZE]
  have huw : usizeOfInt m.width = m.width.toNat :=
    usizeOfInt_eq_toNat hw.le (by omega)
  have hpos : m.position_of index = ((index : Int) % m.width, (index : Int) / m.width) :=
    position_of_eq m hw (by omega)
  have heq : m.get_available_exits index =
      (if m.is_in_bound ((index : Int) % m.width - 1) ((index : Int) / m.width) = true ∧
          m.blocked_tiles.getD (m.index_of ((index : Int) % m.width - 1) ((index : Int) / m.width)) true = false
       then [(m.index_of ((index : Int) % m.width - 1) ((index : Int) / m.width), (1 : Rat))] else []) ++
      (if m.is_in_bound ((index : Int) % m.width + 1) ((index : Int) / m.width) = true ∧
          m.blocked_tiles.getD (m.index_of ((index : Int) % m.width + 1) ((index : Int) / m.width)) true = false
       then [(m.index_of ((index : Int) % m.width + 1) ((index : Int) / m.width), (1 : Rat))] else []) ++
      (if m.is_in_bound ((index : Int) % m.width) ((index : Int) / m.width - 1) = true ∧
          m.blocked_tiles.getD (m.index_of ((index : Int) % m.width) ((index : Int) / m.width - 1)) true = false
       then [(m.index_of ((index : Int) % m.width) ((index : Int) / m.width - 1), (1 : Rat))] else []) ++
      (if m.is_in_bound ((index : Int) % m.width) ((index : Int) / m.width + 1) = true ∧
          m.blocked_tiles.getD (m.index_of ((index : Int) % m.width) ((index : Int) / m.width + 1)) true = false
       then [(m.index_of ((index : Int) % m.width) ((index : Int) / m.width + 1), (1 : Rat))] else []) ++
      (if m.is_in_bound ((index : Int) % m.width - 1) ((index : Int) / m.width - 1) = true ∧
          m.blocked_tiles.getD (m.index_of ((index : Int) % m.width - 1) ((index : Int) / m.width - 1)) true = false
       then [(m.index_of ((index : Int) % m.width - 1) ((index : Int) / m.width - 1), (1.45 : Rat))] else []) ++
      (if m.is_in_bound ((index : Int) % m.width + 1) ((index : Int) / m.width - 1) = true ∧
          m.blocked_tiles.getD (m.index_of ((index : Int) % m.width + 1) ((index : Int) / m.width - 1)) true = false
       then [(m.index_of ((index : Int) % m.width + 1) ((index : Int) / m.width - 1), (1.45 : Rat))] else []) ++
      (if m.is_in_bound ((index : Int) % m.width - 1) ((index : Int) / m.width + 1) = true ∧
          m.blocked_tiles.getD (m.index_of ((index : Int) % m.width - 1) ((index : Int) / m.width + 1)) true = false
       then [(m.index_of ((index : Int) % m.width - 1) ((index : Int) / m.width + 1), (1.45 : Rat))] else []) ++
      (if m.is_in_bound ((index : Int) % m.width + 1) ((index : Int) / m.width + 1) = true ∧
          m.blocked_tiles.getD (m.index_of ((index : Int) % m.width + 1) ((index : Int) / m.width + 1)) true = false
       then [(m.index_of ((index : Int) % m.width + 1) ((index : Int) / m.width + 1), (1.45 : Rat))] else []) := by
    simp only [Map.get_available_exits, hpos, huw]
    refine congrArg₂ (· ++ ·) ?_ ?_
    refine congrArg₂ (· ++ ·) ?_ ?_
    refine congrArg₂ (· ++ ·) ?_ ?_
    refine congrArg₂ (· ++ ·) ?_ ?_
    refine congrArg₂ (· ++ ·) ?_ ?_
    refine congrArg₂ (· ++ ·) ?_ ?_
    refine congrArg₂ (· ++ ·) ?_ ?_
    · by_cases hv : m.is_in_bound ((index : Int) % m.width - 1) ((index : Int) / m.width) = true ∧
          m.blocked_tiles.getD (m.index_of ((index : Int) % m.width - 1) ((index : Int) / m.width)) true = false
      · rw [if_pos ((is_exit_valid_iff m ((index : Int) % m.width - 1) ((index : Int) / m.width)).mpr hv), if_pos hv]
        obtain ⟨ha1, ha2, ha3, ha4⟩ := in_bound_dest m hv.1
        rw [(neighbor_index_spec m hw hh hsz hv.1).1]
        have hkey : usizeSub index 1 = ((((index : Int) / m.width)) * m.width + (((index : Int) % m.width - 1))).toNat := by
          have hx1 : 1 ≤ (index : Int) % m.width := by omega
          have hi1 : 1 ≤ index := by omega
          rw [usizeSub_small hU64idx hi1, mul_comm ((index : Int) / m.width) m.width, hp]
          omega
        rw [hkey]
      · rw [if_neg (fun hex => hv ((is_exit_valid_iff m ((index : Int) % m.width - 1) ((index : Int) / m.width)).mp hex)), if_neg hv]
    · by_cases hv : m.is_in_bound ((index : Int) % m.width + 1) ((index : Int) / m.width) = true ∧
          m.blocked_tiles.getD (m.index_of ((index : Int) % m.width + 1) ((index : Int) / m.width)) true = false
      · rw [if_pos ((is_exit_valid_iff m ((index : Int) % m.width + 1) ((index : Int) / m.width)).mpr hv), if_pos hv]
        obtain ⟨ha1, ha2, ha3, ha4⟩ := in_bound_dest m hv.1
        rw [(neighbor_index_spec m hw hh hsz hv.1).1]
        have hkey : usizeAdd index 1 = ((((index : Int) / m.width)) * m.width + (((index : Int) % m.width + 1))).toNat := by
          rw [usizeAdd_small (by unfold USIZE; omega), mul_comm ((index : Int) / m.width) m.width, hp]
          omega
        rw [hkey]
      · rw [if_neg (fun hex => hv ((is_exit_valid_iff m ((index : Int) % m.width + 1) ((index : Int) / m.width)).mp hex)), if_neg hv]
    · by_cases hv : m.is_in_bound ((index : Int) % m.width) ((index : Int) / m.width - 1) = true ∧
          m.blocked_tiles.getD (m.index_of ((index : Int) % m.width) ((index : Int) / m.width - 1)) true = false
      · rw [if_pos ((is_exit_valid_iff m ((index : Int) % m.width) ((index : Int) / m.width - 1)).mpr hv), if_pos hv]
        obtain ⟨ha1, ha2, ha3, ha4⟩ := in_bound_dest m hv.1
        rw [(neighbor_index_spec m hw hh hsz hv.1).1]
        have hkey : usizeSub index m.width.toNat = ((((index : Int) / m.width - 1)) * m.width + (((index : Int) % m.width))).toNat := by
          have hq1 : 1 ≤ (index : Int) / m.width := by omega
          have hwp : m.width ≤ p := by
            rw [← hp]
            have h2 := mul_le_mul_of_nonneg_left hq1 hw.le
            rwa [mul_one] at h2
          have hwle : m.width.toNat ≤ index := by omega
          rw [usizeSub_small hU64idx hwle, sub_mul, one_mul, mul_comm ((index : Int) / m.width) m.width, hp]
          omega
        rw [hkey]
      · rw [if_neg (fun hex => hv ((is_exit_valid_iff m ((index : Int) % m.width) ((index : Int) / m.width - 1)).mp hex)), if_neg hv]
    · by_cases hv : m.is_in_bound ((index : Int) % m.width) ((index : Int) / m.width + 1) = true ∧
          m.blocked_tiles.getD (m.index_of ((index : Int) % m.width) ((index : Int) / m.width + 1)) true = false
      · rw [if_pos ((is_exit_valid_iff m ((index : Int) % m.width) ((index : Int) / m.width + 1)).mpr hv), if_pos hv]
        obtain ⟨ha1, ha2, ha3, ha4⟩ := in_bound_dest m hv.1
        rw [(neighbor_index_spec m hw hh hsz hv.1).1]
        have hkey : usizeAdd index m.width.toNat = ((((index : Int) / m.width + 1)) * m.width + (((index : Int) % m.width))).toNat := by
          rw [usizeAdd_small hU64add, add_mul, one_mul, mul_comm ((index : Int) / m.width) m.width, hp]
          omega
        rw [hkey]
      · rw [if_neg (fun hex => hv ((is_exit_valid_iff m ((index : Int) % m.width) ((index : Int) / m.width + 1)).mp hex)), if_neg hv]
    · by_cases hv : m.is_in_bound ((index : Int) % m.width - 1) ((index : Int) / m.width - 1) = true ∧
          m.blocked_tiles.getD (m.index_of ((index : Int) % m.width - 1) ((index : Int) / m.width - 1)) true = false
      · rw [if_pos ((is_exit_valid_iff m ((index : Int) % m.width - 1) ((index : Int) / m.width - 1)).mpr hv), if_pos hv]
        obtain ⟨ha1, ha2, ha3, ha4⟩ := in_bound_dest m hv.1
        rw [(neighbor_index_spec m hw hh hsz hv.1).1]
        have hkey : usizeSub (usizeSub index m.width.toNat) 1 = ((((index : Int) / m.width - 1)) * m.width + (((index : Int) % m.width - 1))).toNat := by
          have hq1 : 1 ≤ (index : Int) / m.width := by omega
          have hx1 : 1 ≤ (index : Int) % m.width := by omega
          have hwp : m.width ≤ p := by
            rw [← hp]
            have h2 := mul_le_mul_of_nonneg_left hq1 hw.le
            rwa [mul_one] at h2
          have hwle : m.width.toNat ≤ index := by omega
          rw [usizeSub_small hU64idx hwle, usizeSub_small (by unfold USIZE; omega) (by omega),
            sub_mul, one_mul, mul_comm ((index : Int) / m.width) m.width, hp]
          omega
        rw [hkey]
      · rw [if_neg (fun hex => hv ((is_exit_valid_iff m ((index : Int) % m.width - 1) ((index : Int) / m.width - 1)).mp hex)), if_neg hv]
    · by_cases hv : m.is_in_bound ((index : Int) % m.width + 1) ((index : Int) / m.width - 1) = true ∧
          m.blocked_tiles.getD (m.index_of ((index : Int) % m.width + 1) ((index : Int) / m.width - 1)) true = false
      · rw [if_pos ((is_exit_valid_iff m ((index : Int) % m.width + 1) ((index : Int) / m.width - 1)).mpr hv), if_pos hv]
        obtain ⟨ha1, ha2, ha3, ha4⟩ := in_bound_dest m hv.1
        rw [(neighbor_index_spec m hw hh hsz hv.1).1]
        have hkey : usizeAdd (usizeSub index m.width.toNat) 1 = ((((index : Int) / m.width - 1)) * m.width + (((index : Int) % m.width + 1))).toNat := by
          have hq1 : 1 ≤ (index : Int) / m.width := by omega
          have hwp : m.width ≤ p := by
            rw [← hp]
            have h2 := mul_le_mul_of_nonneg_left hq1 hw.le
            rwa [mul_one] at h2
          have hwle : m.width.toNat ≤ index := by omega
          rw [usizeSub_small hU64idx hwle, usizeAdd_small (by unfold USIZE; omega),
            sub_mul, one_mul, mul_comm ((index : Int) / m.width) m.width, hp]
          omega
        rw [hkey]
      · rw [if_neg (fun hex => hv ((is_exit_valid_iff m ((index : Int) % m.width + 1) ((index : Int) / m.width - 1)).mp hex)), if_neg hv]
    · by_cases hv : m.is_in_bound ((index : Int) % m.width - 1) ((index : Int) / m.width + 1) = true ∧
          m.blocked_tiles.getD (m.index_of ((index : Int) % m.width - 1) ((index : Int) / m.width + 1)) true = false
      · rw [if_pos ((is_exit_valid_iff m ((index : Int) % m.width - 1) ((index : Int) / m.width + 1)).mpr hv), if_pos hv]
        obtain ⟨ha1, ha2, ha3, ha4⟩ := in_bound_dest m hv.1
        rw [(neighbor_index_spec m hw hh hsz hv.1).1]
        have hkey : usizeSub (usizeAdd index m.width.toNat) 1 = ((((index : Int) / m.width + 1)) * m.width + (((index : Int) % m.width - 1))).toNat := by
          have hx1 : 1 ≤ (index : Int) % m.width := by omega
          have hi1 : 1 ≤ index := by omega
          rw [usizeAdd_small hU64add, usizeSub_small (by unfold USIZE; omega) (by omega),
            add_mul, one_mul, mul_comm ((index : Int) / m.width) m.width, hp]
          omega
        rw [hkey]
      · rw [if_neg (fun hex => hv ((is_exit_valid_iff m ((index : Int) % m.width - 1) ((index : Int) / m.width + 1)).mp hex)), if_neg hv]
    · by_cases hv : m.is_in_bound ((index : Int) % m.width + 1) ((index : Int) / m.width + 1) = true ∧
          m.blocked_tiles.getD (m.index_of ((index : Int) % m.width + 1) ((index : Int) / m.width + 1)) true = false
      · rw [if_pos ((is_exit_valid_iff m ((index : Int) % m.width + 1) ((index : Int) / m.width + 1)).mpr hv), if_pos hv]
        obtain ⟨ha1, ha2, ha3, ha4⟩ := in_bound_dest m hv.1
        rw [(neighbor_index_spec m hw hh hsz hv.1).1]
        have hkey : usizeAdd (usizeAdd index m.width.toNat) 1 = ((((index : Int) / m.width + 1)) * m.width + (((index : Int) % m.width + 1))).toNat := by
          rw [usizeAdd_small hU64add, usizeAdd_small (by unfold USIZE; omega),
            add_mul, one_mul, mul_comm ((index : Int) / m.width) m.width, hp]
          omega
        rw [hkey]
      · rw [if_neg (fun hex => hv ((is_exit_valid_iff m ((index : Int) % m.width + 1) ((index : Int) / m.width + 1)).mp hex)), if_neg hv]
  refine ⟨heq, ?_⟩
  intro hall hx1b hx2b hy1b hy2b
  rw [heq]
  have hb1 : m.is_in_bound ((index : Int) % m.width - 1) ((index : Int) / m.width) = true :=
    in_bound_arith m (by omega) (by omega) (by omega) (by omega)
  have hg1 : m.blocked_tiles.getD (m.index_of ((index : Int) % m.width - 1) ((index : Int) / m.width)) true = false := by
    have hlt := (neighbor_index_spec m hw hh hsz hb1).2
    rw [← hbl] at hlt
    rw [List.getD_eq_getElem _ _ hlt]
    exact hall _ (List.getElem_mem _)
  have hb2 : m.is_in_bound ((index : Int) % m.width + 1) ((index : Int) / m.width) = true :=
    in_bound_arith m (by omega) (by omega) (by omega) (by omega)
  have hg2 : m.blocked_tiles.getD (m.index_of ((index : Int) % m.width + 1) ((index : Int) / m.width)) true = false := by
    have hlt := (neighbor_index_spec m hw hh hsz hb2).2
    rw [← hbl] at hlt
    rw [List.getD_eq_getElem _ _ hlt]
    exact hall _ (List.getElem_mem _)
  have hb3 : m.is_in_bound ((index : Int) % m.width) ((index : Int) / m.width - 1) = true :=
    in_bound_arith m (by omega) (by omega) (by omega) (by omega)
  have hg3 : m.blocked_tiles.getD (m.index_of ((index : Int) % m.width) ((index : Int) / m.width - 1)) true = false := by
    have hlt := (neighbor_index_spec m hw hh hsz hb3).2
    rw [← hbl] at hlt
    rw [List.getD_eq_getElem _ _ hlt]
    exact hall _ (List.getElem_mem _)
  have hb4 : m.is_in_bound ((index : Int) % m.width) ((index : Int) / m.width + 1) = true :=
    in_bound_arith m (by omega) (by omega) (by omega) (by omega)
  have hg4 : m.blocked_tiles.getD (m.index_of ((index : Int) % m.width) ((index : Int) / m.width + 1)) true = false := by
    have hlt := (neighbor_index_spec m hw hh hsz hb4).2
    rw [← hbl] at hlt
    rw [List.getD_eq_getElem _ _ hlt]
    exact hall _ (List.getElem_mem _)
  have hb5 : m.is_in_bound ((index : Int) % m.width - 1) ((index : Int) / m.width - 1) = true :=
    in_bound_arith m (by omega) (by omega) (by omega) (by omega)
  have hg5 : m.blocked_tiles.getD (m.index_of ((index : Int) % m.width - 1) ((index : Int) / m.width - 1)) true = false := by
    have hlt := (neighbor_index_spec m hw hh hsz hb5).2
    rw [← hbl] at hlt
    rw [List.getD_eq_getElem _ _ hlt]
    exact hall _ (List.getElem_mem _)
  have hb6 : m.is_in_bound ((index : Int) % m.width + 1) ((index : Int) / m.width - 1) = true :=
    in_bound_arith m (by omega) (by omega) (by omega) (by omega)
  have hg6 : m.blocked_tiles.getD (m.index_of ((index : Int) % m.width + 1) ((index : Int) / m.width - 1)) true = false := by
    have hlt := (neighbor_index_spec m hw hh hsz hb6).2
    rw [← hbl] at hlt
    rw [List.getD_eq_getElem _ _ hlt]
    exact hall _ (List.getElem_mem _)
  have hb7 : m.is_in_bound ((index : Int) % m.width - 1) ((index : Int) / m.width + 1) = true :=
    in_bound_arith m (by omega) (by omega) (by omega) (by omega)
  have hg7 : m.blocked_tiles.getD (m.index_of ((index : Int) % m.width - 1) ((index : Int) / m.width + 1)) true = false := by
    have hlt := (neighbor_index_spec m hw hh hsz hb7).2
    rw [← hbl] at hlt
    rw [List.getD_eq_getElem _ _ hlt]
    exact hall _ (List.getElem_mem _)
  have hb8 : m.is_in_bound ((index : Int) % m.width + 1) ((index : Int) / m.width + 1) = true :=
    in_bound_arith m (by omega) (by omega) (by omega) (by omega)
  have hg8 : m.blocked_tiles.getD (m.index_of ((index : Int) % m.width + 1) ((index : Int) / m.width + 1)) true = false := by
    have hlt := (neighbor_index_spec m hw hh hsz hb8).2
    rw [← hbl] at hlt
    rw [List.getD_eq_getElem _ _ hlt]
    exact hall _ (List.getElem_mem _)
  rw [if_pos (⟨hb1, hg1⟩ : _ ∧ _), if_pos (⟨hb2, hg2⟩ : _ ∧ _), if_pos (⟨hb3, hg3⟩ : _ ∧ _), if_pos (⟨hb4, hg4⟩ : _ ∧ _), if_pos (⟨hb5, hg5⟩ : _ ∧ _), if_pos (⟨hb6, hg6⟩ : _ ∧ _), if_pos (⟨hb7, hg7⟩ : _ ∧ _), if_pos (⟨hb8, hg8⟩ : _ ∧ _)]
  rfl

/-- Witness for C2 at the refreshed 20×8 map and interior Floor cell (3, 3):
all eight neighbours are open, cardinals at cost 1.0 and diagonals at 1.45. -/
theorem get_available_exits_spec_witness :
    mapWB.get_available_exits 63 =
      [(62, 1), (64, 1), (43, 1), (83, 1),
       (42, 1.45), (44, 1.45), (82, 1.45), (84, 1.45)] := by
  have h := (get_available_exits_spec mapWB 63 (by decide) (by decide) (by decide)
    (by decide) (by decide)).1
  rw [h]
  rfl

theorem filterMap_range_succ {α : Type} (n : Nat) (f : Nat → Option α) :
    (List.range (n + 1)).filterMap f =
      (f 0).toList ++ (List.range n).filterMap (fun k => f (k + 1)) := by
  rw [List.range_succ_eq_map, List.filterMap_cons, List.filterMap_map]
  cases h : f 0 <;> simp [h, Function.comp_def, Nat.succ_eq_add_one]

theorem drawTilesGo_spec (m : Map) (viewshed : Viewshed) (hw : 0 < m.width) :
    ∀ (ts : List TileType) (i0 : Nat) (x y : Int),
      x = (i0 : Int) % m.width → y = (i0 : Int) / m.width →
      m.drawTilesGo viewshed ts i0 x y =
        (List.range ts.length).filterMap (fun k =>
          if viewshed.revealed_tiles.getD (i0 + k) false then
            some { x := ((i0 + k : Nat) : Int) % m.width
                   y := ((i0 + k : Nat) : Int) / m.width
                   foreground :=
                     (if viewshed.visible_tiles.getD (i0 + k) false then
                        tileBaseColor (ts.getD k TileType.Wall)
                      else (tileBaseColor (ts.getD k TileType.Wall)).to_greyscale)
                   background := RGBColor.from_f32 0 0 0
                   glyph := tileGlyph (ts.getD k TileType.Wall) }
          else none)
  | [], i0, x, y, hx, hy => by
    simp [Map.drawTilesGo]
  | t :: rest, i0, x, y, hx, hy => by
    have hr0 : 0 ≤ (i0 : Int) % m.width := Int.emod_nonneg _ (by omega)
    have hrw : (i0 : Int) % m.width < m.width := Int.emod_lt_of_pos _ hw
    have key := Int.ediv_add_emod (i0 : Int) m.width
    have hnext : (if x + 1 > m.width - 1 then ((0 : Int), y + 1) else (x + 1, y)) =
        (((i0 + 1 : Nat) : Int) % m.width, ((i0 + 1 : Nat) : Int) / m.width) := by
      push_cast
      by_cases hc : x + 1 > m.width - 1
      · rw [if_pos hc]
        have h1 : ((i0 : Int) + 1) / m.width = (i0 : Int) / m.width + 1 ∧
            ((i0 : Int) + 1) % m.width = 0 := by
          apply (Int.ediv_emod_unique hw).mpr
          refine ⟨?_, le_refl (0 : Int), hw⟩
          rw [mul_add, mul_one]
          omega
        rw [h1.1, h1.2, hy]
      · rw [if_neg hc]
        have h1 : ((i0 : Int) + 1) / m.width = (i0 : Int) / m.width ∧
            ((i0 : Int) + 1) % m.width = (i0 : Int) % m.width + 1 := by
          apply (Int.ediv_emod_unique hw).mpr
          refine ⟨by omega, by omega, by omega⟩
        rw [h1.1, h1.2, hx, hy]
    simp only [Map.drawTilesGo]
    rw [hnext]
    rw [drawTilesGo_spec m viewshed hw rest (i0 + 1) _ _ rfl rfl]
    rw [List.length_cons, filterMap_range_succ]
    refine congrArg₂ (· ++ ·) ?_ ?_
    · cases hrev : viewshed.revealed_tiles.getD (i0 + 0) false with
      | false =>
        rw [Nat.add_zero, List.getD_eq_getElem?_getD] at hrev
        simp [hrev]
      | true =>
        rw [Nat.add_zero, List.getD_eq_getElem?_getD] at hrev
        cases t <;> cases hv : viewshed.visible_tiles[i0]?.getD false <;>
          simp [hrev, hv, hx, hy, tileGlyph, tileBaseColor, RGBColor.to_greyscale]
    · refine List.filterMap_congr ?_
      intro k hk
      rw [show i0 + 1 + k = i0 + (k + 1) from by omega]
      rw [List.getD_cons_succ]

/-- C8: for every tile index `i`, the draw projection for a viewshed emits a
draw call for `i` iff `revealed_tiles[i]` is true, at screen coordinates
`position_of(i)`, with glyph and base foreground colour determined solely by
`tiles[i]`, the foreground desaturated to greyscale exactly when
`visible_tiles[i]` is false, and no call at all when the tile is
unrevealed. -/
theorem draw_projection_spec (m : Map) (viewshed : Viewshed)
    (hw : 0 < m.width)
    (hlen : m.tiles.length = (m.width * m.height).toNat)
    (hsz : m.width * m.height < 2 ^ 31) :
    m.draw [viewshed] =
      (List.range m.tiles.length).filterMap (fun i =>
        if viewshed.revealed_tiles.getD i false then
          some (drawCallSpec m viewshed i (m.tiles.getD i TileType.Wall))
        else none) := by
  have hdef : m.draw [viewshed] = m.drawTilesGo viewshed m.tiles 0 0 0 ++ [] := rfl
  rw [hdef, List.append_nil]
  rw [drawTilesGo_spec m viewshed hw m.tiles 0 0 0 (by simp) (by simp)]
  refine List.filterMap_congr ?_
  intro k hk
  rw [List.mem_range] at hk
  have hk31 : ((k : Nat) : Int) < 2 ^ 31 := by omega
  simp only [Nat.zero_add]
  unfold drawCallSpec
  rw [position_of_eq m hw hk31]

/-- Witness for C8 on the concrete 2×2 map and viewshed: tile 0 unrevealed
(no call), tile 1 revealed and visible (saturated), tile 2 revealed but not
visible (greyscale). -/
theorem draw_projection_spec_witness :
    mapD.draw [viewshedD] =
      (List.range mapD.tiles.length).filterMap (fun i =>
        if viewshedD.revealed_tiles.getD i false then
          some (drawCallSpec mapD viewshedD i (mapD.tiles.getD i TileType.Wall))
        else none) :=
  draw_projection_spec mapD viewshedD (by decide) (by decide) (by decide)

theorem add_horizontal_tunnel_skel (m : Map) (a b c : Int) :
    (m.add_horizontal_tunnel a b c).width = m.width ∧
    (m.add_horizontal_tunnel a b c).height = m.height ∧
    (m.add_horizontal_tunnel a b c).rooms = m.rooms ∧
    (m.add_horizontal_tunnel a b c).tiles.length = m.tiles.length :=
  ⟨rfl, rfl, rfl, carveGuarded_length _ _ _⟩

theorem add_vertical_tunnel_skel (m : Map) (a b c : Int) :
    (m.add_vertical_tunnel a b c).width = m.width ∧
    (m.add_vertical_tunnel a b c).height = m.height ∧
    (m.add_vertical_tunnel a b c).rooms = m.rooms ∧
    (m.add_vertical_tunnel a b c).tiles.length = m.tiles.length :=
  ⟨rfl, rfl, rfl, carveGuarded_length _ _ _⟩

theorem add_room_skel (m : Map) (room : Room) (m2 : Map)
    (h : m.add_room room = some m2) :
    m2.width = m.width ∧ m2.height = m.height ∧ m2.rooms = m.rooms ∧
    m2.tiles.length = m.tiles.length := by
  rw [add_room_eq] at h
  cases hsf : setFloorAllChecked m.tiles (roomIdxs m room) with
  | none =>
    rw [hsf] at h
    cases h
  | some t2 =>
    rw [hsf, Option.map_some'] at h
    have h2 := Option.some.inj h
    rw [← h2]
    exact ⟨rfl, rfl, rfl, setFloorAllChecked_length _ _ _ hsf⟩

theorem add_horizontal_tunnel_floor_mono (m : Map) (a b c : Int) {i : Nat}
    (h : m.tiles[i]? = some TileType.Floor) :
    (m.add_horizontal_tunnel a b c).tiles[i]? = some TileType.Floor :=
  carveGuarded_floor_mono _ _ h

theorem add_vertical_tunnel_floor_mono (m : Map) (a b c : Int) {i : Nat}
    (h : m.tiles[i]? = some TileType.Floor) :
    (m.add_vertical_tunnel a b c).tiles[i]? = some TileType.Floor :=
  carveGuarded_floor_mono _ _ h

theorem add_room_floor_mono (m : Map) (room : Room) (m2 : Map)
    (hsome : m.add_room room = some m2) {i : Nat}
    (h : m.tiles[i]? = some TileType.Floor) :
    m2.tiles[i]? = some TileType.Floor := by
  rw [add_room_eq] at hsome
  cases hsf : setFloorAllChecked m.tiles (roomIdxs m room) with
  | none =>
    rw [hsf] at hsome
    cases hsome
  | some t2 =>
    rw [hsf, Option.map_some'] at hsome
    have h2 := Option.some.inj hsome
    rw [← h2]
    exact setFloorAllChecked_floor_mono _ _ _ _ hsf h

theorem range_bounds {rng rng2 : RandomNumberGenerator} {lo hi v : Int}
    (h : rng.range lo hi = some (v, rng2)) : lo ≤ v ∧ v < hi := by
  unfold RandomNumberGenerator.range at h
  by_cases hlt : lo < hi
  · rw [if_pos hlt] at h
    have h2 := Option.some.inj h
    rw [Prod.mk.injEq] at h2
    obtain ⟨hv, _⟩ := h2
    have h0 : 0 ≤ (rng.stream rng.pos : Int) % (hi - lo) :=
      Int.emod_nonneg _ (by omega)
    have h1 : (rng.stream rng.pos : Int) % (hi - lo) < hi - lo :=
      Int.emod_lt_of_pos _ (by omega)
    omega
  · rw [if_neg hlt] at h
    cases h

theorem range_total (rng : RandomNumberGenerator) {lo hi : Int} (h : lo < hi) :
    ∃ v rng2, rng.range lo hi = some (v, rng2) := by
  refine ⟨lo + (rng.stream rng.pos : Int) % (hi - lo),
    { rng with pos := rng.pos + 1 }, ?_⟩
  unfold RandomNumberGenerator.range
  rw [if_pos h]

theorem roll_dice_one_eq (rng : RandomNumberGenerator) (sides : Int) :
    rng.roll_dice 1 sides =
      (rng.range 1 (sides + 1)).map (fun vr => (vr.1 + 0, vr.2)) := by
  unfold RandomNumberGenerator.roll_dice
  rw [show (1 : Int).toNat = 1 from rfl]
  unfold RandomNumberGenerator.rollDiceGo
  cases hr : rng.range 1 (sides + 1) with
  | none =>
    rw [Option.map_none']
    rfl
  | some vr =>
    obtain ⟨v1, rng1⟩ := vr
    rw [Option.map_some']
    rfl

theorem roll_dice_one_bounds {rng rng2 : RandomNumberGenerator} {sides v : Int}
    (h : rng.roll_dice 1 sides = some (v, rng2)) : 1 ≤ v ∧ v ≤ sides := by
  rw [roll_dice_one_eq] at h
  cases hr : rng.range 1 (sides + 1) with
  | none =>
    rw [hr, Option.map_none'] at h
    cases h
  | some vr =>
    obtain ⟨v1, rng1⟩ := vr
    rw [hr, Option.map_some'] at h
    have h2 := Option.some.inj h
    rw [Prod.mk.injEq] at h2
    obtain ⟨hv, _⟩ := h2
    have hb := range_bounds hr
    omega

theorem roll_dice_one_total (rng : RandomNumberGenerator) {sides : Int}
    (h : 1 ≤ sides) :
    ∃ v rng2, rng.roll_dice 1 sides = some (v, rng2) := by
  rw [roll_dice_one_eq]
  obtain ⟨v, rng2, hr⟩ := range_total rng (show (1 : Int) < sides + 1 by omega)
  rw [hr, Option.map_some']
  exact ⟨_, _, rfl⟩

theorem placement_valid_iff (m : Map) (room : Room) :
    m.is_placement_valid room = true ↔
      ∀ r ∈ m.rooms, room.intersect r = false := by
  unfold Map.is_placement_valid
  rw [List.all_eq_true]
  simp only [Bool.not_eq_true']

theorem intersect_symm (a b : Room) : a.intersect b = b.intersect a := by
  have key : ∀ p q : Room, p.intersect q = true → q.intersect p = true := by
    intro p q h
    unfold Room.intersect at *
    simp only [Bool.and_eq_true, decide_eq_true_eq, ge_iff_le] at *
    omega
  cases hab : a.intersect b with
  | true => exact (key a b hab).symm
  | false =>
    cases hba : b.intersect a with
    | false => rfl
    | true =>
      have h2 := key b a hba
      rw [hab] at h2
      cases h2

theorem RoomInGrid_center {w h : Int} {room : Room} (hr : RoomInGrid w h room) :
    2 ≤ room.center.x ∧ room.center.x ≤ w - 3 ∧
    2 ≤ room.center.y ∧ room.center.y ≤ h - 3 := by
  obtain ⟨h1, h2, h3, h4, h5, h6⟩ := hr
  unfold Room.center
  simp only []
  rw [Int.tdiv_eq_ediv (by omega) (by norm_num),
    Int.tdiv_eq_ediv (by omega) (by norm_num)]
  omega

theorem Room_new_in_grid {w h x y rwv rhv : Int}
    (hx0 : 0 ≤ x) (hx1 : x ≤ w - rwv - 2) (hrw : 6 ≤ rwv)
    (hy0 : 0 ≤ y) (hy1 : y ≤ h - rhv - 2) (hrh : 6 ≤ rhv) :
    RoomInGrid w h (Room.new { x := x, y := y } rwv rhv) := by
  unfold Room.new RoomInGrid
  simp only []
  omega

theorem getLast?_mem_of_eq {α : Type} {l : List α} {a : α}
    (h : l.getLast? = some a) : a ∈ l := by
  rcases List.mem_getLast?_eq_getLast (Option.mem_def.mpr h) with ⟨hne, rfl⟩
  exact List.getLast_mem hne

theorem index_of_congr (m m2 : Map) (hwid : m2.width = m.width) (x y : Int) :
    m2.index_of x y = m.index_of x y := by
  unfold Map.index_of
  rw [hwid]

theorem floorAt_mono (m m2 : Map) (hwid : m2.width = m.width)
    (hmono : ∀ i : Nat, m.tiles[i]? = some TileType.Floor →
      m2.tiles[i]? = some TileType.Floor)
    {x y : Int} (h : floorAt m x y) : floorAt m2 x y := by
  unfold floorAt at *
  rw [index_of_congr m m2 hwid]
  exact hmono _ h

theorem LConnected_mono (m m2 : Map) (hwid : m2.width = m.width)
    (hmono : ∀ i : Nat, m.tiles[i]? = some TileType.Floor →
      m2.tiles[i]? = some TileType.Floor)
    {c1 c2 : Position} (h : LConnected m c1 c2) : LConnected m2 c1 c2 := by
  unfold LConnected HRun VRun at *
  rcases h with ⟨h1, h2⟩ | ⟨h1, h2⟩
  · exact Or.inl ⟨fun x ha hb => floorAt_mono m m2 hwid hmono (h1 x ha hb),
      fun y ha hb => floorAt_mono m m2 hwid hmono (h2 y ha hb)⟩
  · exact Or.inr ⟨fun y ha hb => floorAt_mono m m2 hwid hmono (h1 y ha hb),
      fun x ha hb => floorAt_mono m m2 hwid hmono (h2 x ha hb)⟩

theorem add_horizontal_tunnel_establishes (m : Map) (x1 x2 yy : Int)
    (hw : 0 < m.width) (hh : 0 < m.height) (hsz : m.width * m.height < 2 ^ 31)
    (hlen : m.tiles.length = (m.width * m.height).toNat)
    (hyy1 : 1 ≤ yy) (hyy2 : yy < m.height)
    (hlo : 0 ≤ min x1 x2) (hhi : max x1 x2 < m.width) :
    HRun (m.add_horizontal_tunnel x1 x2 yy) x1 x2 yy := by
  intro x hx1 hx2
  unfold floorAt
  have hx0 : 0 ≤ x := le_trans hlo hx1
  have hxw : x < m.width := lt_of_le_of_lt hx2 hhi
  have hio := index_of_lt m hx0 hxw (by omega) hyy2 hw hh hsz
  have hwle : m.width * 1 ≤ m.width * yy :=
    mul_le_mul_of_nonneg_left hyy1 hw.le
  have hpos : 0 < m.index_of x yy := by
    rw [hio.1, mul_comm m.width yy] at *
    omega
  have hre : (m.add_horizontal_tunnel x1 x2 yy).tiles =
      carveGuarded m.tiles (usizeOfInt (wrapI32 (m.width * m.height)))
        ((intRange (min x1 x2) (max x1 x2)).map (fun x => m.index_of x yy)) := rfl
  have hri : (m.add_horizontal_tunnel x1 x2 yy).index_of x yy = m.index_of x yy := rfl
  rw [hre, hri]
  refine carveGuarded_mem _ ?_ hpos ?_ _ ?_
  · exact List.mem_map.mpr ⟨x, intRange_mem.mpr ⟨hx1, hx2⟩, rfl⟩
  · rw [map_size_eq m (mul_nonneg hw.le hh.le) hsz]
    exact hio.2
  · rw [hlen]
    exact hio.2

theorem add_vertical_tunnel_establishes (m : Map) (y1 y2 xx : Int)
    (hw : 0 < m.width) (hh : 0 < m.height) (hsz : m.width * m.height < 2 ^ 31)
    (hlen : m.tiles.length = (m.width * m.height).toNat)
    (hxx1 : 1 ≤ xx) (hxx2 : xx < m.width)
    (hlo : 0 ≤ min y1 y2) (hhi : max y1 y2 < m.height) :
    VRun (m.add_vertical_tunnel y1 y2 xx) y1 y2 xx := by
  intro y hy1 hy2
  unfold floorAt
  have hy0 : 0 ≤ y := le_trans hlo hy1
  have hyh : y < m.height := lt_of_le_of_lt hy2 hhi
  have hio := index_of_lt m (by omega) hxx2 hy0 hyh hw hh hsz
  have hyw : 0 ≤ y * m.width := mul_nonneg hy0 hw.le
  have hpos : 0 < m.index_of xx y := by
    rw [hio.1]
    omega
  have hre : (m.add_vertical_tunnel y1 y2 xx).tiles =
      carveGuarded m.tiles (usizeOfInt (wrapI32 (m.width * m.height)))
        ((intRange (min y1 y2) (max y1 y2)).map (fun y => m.index_of xx y)) := rfl
  have hri : (m.add_vertical_tunnel y1 y2 xx).index_of xx y = m.index_of xx y := rfl
  rw [hre, hri]
  refine carveGuarded_mem _ ?_ hpos ?_ _ ?_
  · exact List.mem_map.mpr ⟨y, intRange_mem.mpr ⟨hy1, hy2⟩, rfl⟩
  · rw [map_size_eq m (mul_nonneg hw.le hh.le) hsz]
    exact hio.2
  · rw [hlen]
    exact hio.2

theorem link_rooms_inv (ma : Map) (r : Room) (rng : RandomNumberGenerator)
    (hw : 0 < ma.width) (hh : 0 < ma.height)
    (hsz : ma.width * ma.height < 2 ^ 31)
    (hlen : ma.tiles.length = (ma.width * ma.height).toNat)
    (hrooms : ∀ room ∈ ma.rooms, RoomInGrid ma.width ma.height room)
    (hrnew : RoomInGrid ma.width ma.height r)
    (hne : ma.rooms ≠ []) :
    ∃ mb rng5 prev,
      ma.link_rooms_with_tunnels r rng = some (mb, rng5) ∧
      ma.rooms.getLast? = some prev ∧
      mb.width = ma.width ∧ mb.height = ma.height ∧ mb.rooms = ma.rooms ∧
      mb.tiles.length = ma.tiles.length ∧
      (∀ i : Nat, ma.tiles[i]? = some TileType.Floor →
        mb.tiles[i]? = some TileType.Floor) ∧
      LConnected mb prev.center r.center := by
  obtain ⟨prev, hlast⟩ : ∃ prev, ma.rooms.getLast? = some prev := by
    cases hq : ma.rooms.getLast? with
    | none => exact absurd (List.getLast?_eq_none_iff.mp hq) hne
    | some a => exact ⟨a, rfl⟩
  obtain ⟨coin, rng1, hr⟩ := range_total rng (show (0 : Int) < 2 by norm_num)
  have hpc := RoomInGrid_center (hrooms prev (getLast?_mem_of_eq hlast))
  have hnc := RoomInGrid_center hrnew
  have hma0 : 0 ≤ ma.width * ma.height := mul_nonneg hw.le hh.le
  by_cases hcoin : (coin == 1) = true
  · refine ⟨(ma.add_horizontal_tunnel prev.center.x r.center.x
        prev.center.y).add_vertical_tunnel prev.center.y r.center.y r.center.x,
      rng1, prev, ?_, hlast, rfl, rfl, rfl, ?_, ?_, ?_⟩
    · unfold Map.link_rooms_with_tunnels
      simp only [hlast, hr, Option.bind_eq_bind, Option.some_bind]
      rw [if_pos hcoin]
    · rw [(add_vertical_tunnel_skel _ _ _ _).2.2.2,
        (add_horizontal_tunnel_skel _ _ _ _).2.2.2]
    · intro i hf
      exact add_vertical_tunnel_floor_mono _ _ _ _
        (add_horizontal_tunnel_floor_mono _ _ _ _ hf)
    · have hH : HRun (ma.add_horizontal_tunnel prev.center.x r.center.x
          prev.center.y) prev.center.x r.center.x prev.center.y :=
        add_horizontal_tunnel_establishes ma _ _ _ hw hh hsz hlen
          (by omega) (by omega)
          (by rw [le_min_iff]; omega) (by rw [max_lt_iff]; omega)
      have hV : VRun ((ma.add_horizontal_tunnel prev.center.x r.center.x
          prev.center.y).add_vertical_tunnel prev.center.y r.center.y
            r.center.x) prev.center.y r.center.y r.center.x :=
        add_vertical_tunnel_establishes _ _ _ _ hw hh hsz
          ((add_horizontal_tunnel_skel _ _ _ _).2.2.2.trans hlen)
          (by show (1 : Int) ≤ r.center.x; omega)
          (by show r.center.x < ma.width; omega)
          (by rw [le_min_iff]; omega)
          (by show max prev.center.y r.center.y < ma.height
              rw [max_lt_iff]
              omega)
      have hmono2 : ∀ i : Nat,
          (ma.add_horizontal_tunnel prev.center.x r.center.x
            prev.center.y).tiles[i]? = some TileType.Floor →
          ((ma.add_horizontal_tunnel prev.center.x r.center.x
            prev.center.y).add_vertical_tunnel prev.center.y r.center.y
              r.center.x).tiles[i]? = some TileType.Floor :=
        fun i hf => add_vertical_tunnel_floor_mono _ _ _ _ hf
      refine Or.inl ⟨?_, hV⟩
      intro x ha hb
      exact floorAt_mono
        (ma.add_horizontal_tunnel prev.center.x r.center.x prev.center.y)
        ((ma.add_horizontal_tunnel prev.center.x r.center.x
          prev.center.y).add_vertical_tunnel prev.center.y r.center.y
            r.center.x)
        rfl hmono2 (hH x ha hb)
  · refine ⟨(ma.add_vertical_tunnel prev.center.y r.center.y
        prev.center.x).add_horizontal_tunnel prev.center.x r.center.x
          r.center.y,
      rng1, prev, ?_, hlast, rfl, rfl, rfl, ?_, ?_, ?_⟩
    · unfold Map.link_rooms_with_tunnels
      simp only [hlast, hr, Option.bind_eq_bind, Option.some_bind]
      rw [if_neg hcoin]
    · rw [(add_horizontal_tunnel_skel _ _ _ _).2.2.2,
        (add_vertical_tunnel_skel _ _ _ _).2.2.2]
    · intro i hf
      exact add_horizontal_tunnel_floor_mono _ _ _ _
        (add_vertical_tunnel_floor_mono _ _ _ _ hf)
    · have hV : VRun (ma.add_vertical_tunnel prev.center.y r.center.y
          prev.center.x) prev.center.y r.center.y prev.center.x :=
        add_vertical_tunnel_establishes ma _ _ _ hw hh hsz hlen
          (by omega) (by omega)
          (by rw [le_min_iff]; omega) (by rw [max_lt_iff]; omega)
      have hH : HRun ((ma.add_vertical_tunnel prev.center.y r.center.y
          prev.center.x).add_horizontal_tunnel prev.center.x r.center.x
            r.center.y) prev.center.x r.center.x r.center.y :=
        add_horizontal_tunnel_establishes _ _ _ _ hw hh hsz
          ((add_vertical_tunnel_skel _ _ _ _).2.2.2.trans hlen)
          (by show (1 : Int) ≤ r.center.y; omega)
          (by show r.center.y < ma.height; omega)
          (by rw [le_min_iff]; omega)
          (by show max prev.center.x r.center.x < ma.width
              rw [max_lt_iff]
              omega)
      have hmono2 : ∀ i : Nat,
          (ma.add_vertical_tunnel prev.center.y r.center.y
            prev.center.x).tiles[i]? = some TileType.Floor →
          ((ma.add_vertical_tunnel prev.center.y r.center.y
            prev.center.x).add_horizontal_tunnel prev.center.x r.center.x
              r.center.y).tiles[i]? = some TileType.Floor :=
        fun i hf => add_horizontal_tunnel_floor_mono _ _ _ _ hf
      refine Or.inr ⟨?_, hH⟩
      intro y ha hb
      exact floorAt_mono
        (ma.add_vertical_tunnel prev.center.y r.center.y prev.center.x)
        ((ma.add_vertical_tunnel prev.center.y r.center.y
          prev.center.x).add_horizontal_tunnel prev.center.x r.center.x
            r.center.y)
        rfl hmono2 (hV y ha hb)

theorem add_room_total (m : Map) (room : Room)
    (hw : 0 < m.width) (hh : 0 < m.height) (hsz : m.width * m.height < 2 ^ 31)
    (hlen : m.tiles.length = (m.width * m.height).toNat)
    (hx0 : 0 ≤ room.first.x) (hx1 : room.second.x < m.width)
    (hy0 : 0 ≤ room.first.y) (hy1 : room.second.y < m.height) :
    ∃ ma, m.add_room room = some ma := by
  have hall : ∀ j ∈ roomIdxs m room, j < m.tiles.length := by
    intro j hj
    unfold roomIdxs at hj
    rcases List.mem_flatMap.mp hj with ⟨y, hy, hx'⟩
    rcases List.mem_map.mp hx' with ⟨x, hx, rfl⟩
    rw [intRange_mem] at hy hx
    rw [hlen]
    exact (index_of_lt m (by omega) (by omega) (by omega) (by omega) hw hh hsz).2
  obtain ⟨t2, ht⟩ := setFloorAllChecked_isSome (roomIdxs m room) m.tiles hall
  rw [add_room_eq, ht, Option.map_some']
  exact ⟨_, rfl⟩

theorem accept_step_inv (m : Map) (new_room : Room) (ma mb : Map)
    (hinv : MapInv m)
    (hnew : RoomInGrid m.width m.height new_room)
    (hval : m.is_placement_valid new_room = true)
    (har : m.add_room new_room = some ma)
    (hskel : mb.width = ma.width ∧ mb.height = ma.height ∧
      mb.rooms = ma.rooms ∧ mb.tiles.length = ma.tiles.length)
    (hmono : ∀ i : Nat, ma.tiles[i]? = some TileType.Floor →
      mb.tiles[i]? = some TileType.Floor)
    (hlink : ma.rooms ≠ [] → ∃ prev, ma.rooms.getLast? = some prev ∧
      LConnected mb prev.center new_room.center) :
    MapInv { mb with rooms := mb.rooms ++ [new_room] } := by
  obtain ⟨hw0, hh0, hsz, hlen, hpair, hgrid, hchain⟩ := hinv
  obtain ⟨haw, hah, harooms, halen⟩ := add_room_skel m new_room ma har
  obtain ⟨hbw, hbh, hbrooms, hblen⟩ := hskel
  have hWid : mb.width = m.width := hbw.trans haw
  have hHei : mb.height = m.height := hbh.trans hah
  have hRooms : mb.rooms = m.rooms := hbrooms.trans harooms
  have hLen : mb.tiles.length = m.tiles.length := hblen.trans halen
  have hMono : ∀ i : Nat, m.tiles[i]? = some TileType.Floor →
      mb.tiles[i]? = some TileType.Floor :=
    fun i hf => hmono i (add_room_floor_mono m new_room ma har hf)
  unfold MapInv
  refine ⟨?_, ?_, ?_, ?_, ?_, ?_, ?_⟩
  · show 0 ≤ mb.width
    rw [hWid]
    exact hw0
  · show 0 ≤ mb.height
    rw [hHei]
    exact hh0
  · show mb.width * mb.height < 2 ^ 31
    rw [hWid, hHei]
    exact hsz
  · show mb.tiles.length = (mb.width * mb.height).toNat
    rw [hLen, hWid, hHei]
    exact hlen
  · show (mb.rooms ++ [new_room]).Pairwise _
    rw [hRooms, List.pairwise_append]
    refine ⟨hpair, List.pairwise_singleton _ _, ?_⟩
    intro a ha b hb
    rw [List.mem_singleton] at hb
    rw [hb, intersect_symm]
    exact (placement_valid_iff m new_room).mp hval a ha
  · show ∀ room ∈ mb.rooms ++ [new_room], RoomInGrid mb.width mb.height room
    intro room hroom
    rw [hRooms] at hroom
    rw [hWid, hHei]
    rcases List.mem_append.mp hroom with hm | hnew2
    · exact hgrid room hm
    · rw [List.mem_singleton] at hnew2
      subst hnew2
      exact hnew
  · show (mb.rooms ++ [new_room]).Chain' _
    rw [hRooms, List.chain'_append]
    refine ⟨?_, List.chain'_singleton _, ?_⟩
    · rw [← hRooms]
      rw [hRooms]
      refine hchain.imp ?_
      intro a b hab
      exact LConnected_mono m { mb with rooms := mb.rooms ++ [new_room] }
        hWid hMono hab
    · intro x hx y hy
      rw [List.head?_cons, Option.mem_def] at hy
      injection hy with hy
      subst hy
      rw [Option.mem_def] at hx
      have hne : ma.rooms ≠ [] := by
        rw [harooms]
        intro hemp
        rw [hemp] at hx
        simp at hx
      obtain ⟨prev, hprev, hL⟩ := hlink hne
      rw [harooms, hx] at hprev
      injection hprev with hprev
      rw [hprev]
      exact hL

theorem newLoop_inv :
    ∀ (n : Nat) (m : Map) (rng : RandomNumberGenerator) (m2 : Map),
      Map.newLoop n m rng = some m2 → MapInv m →
      MapInv m2 ∧ m2.width = m.width ∧ m2.height = m.height
  | 0, m, rng, m2, h, hinv => by
    unfold Map.newLoop at h
    have h2 := Option.some.inj h
    rw [← h2]
    exact ⟨hinv, rfl, rfl⟩
  | n + 1, m, rng, m2, h, hinv => by
    unfold Map.newLoop at h
    cases hr1 : rng.range 6 10 with
    | none =>
      rw [hr1] at h
      exact Option.noConfusion h
    | some vr1 =>
    obtain ⟨rw1, rng1⟩ := vr1
    simp only [hr1, Option.bind_eq_bind, Option.some_bind] at h
    cases hr2 : rng1.range 6 10 with
    | none =>
      simp only [hr2, Option.bind_eq_bind, Option.none_bind] at h
      exact Option.noConfusion h
    | some vr2 =>
    obtain ⟨rh1, rng2⟩ := vr2
    simp only [hr2, Option.bind_eq_bind, Option.some_bind] at h
    cases hr3 : rng2.roll_dice 1 (m.width - rw1 - 1) with
    | none =>
      simp only [hr3, Option.bind_eq_bind, Option.none_bind] at h
      exact Option.noConfusion h
    | some vr3 =>
    obtain ⟨xr, rng3⟩ := vr3
    simp only [hr3, Option.bind_eq_bind, Option.some_bind] at h
    cases hr4 : rng3.roll_dice 1 (m.height - rh1 - 1) with
    | none =>
      simp only [hr4, Option.bind_eq_bind, Option.none_bind] at h
      exact Option.noConfusion h
    | some vr4 =>
    obtain ⟨yr, rng4⟩ := vr4
    simp only [hr4, Option.bind_eq_bind, Option.some_bind] at h
    by_cases hval : m.is_placement_valid
        (Room.new { x := xr - 1, y := yr - 1 } rw1 rh1) = true
    · rw [if_pos hval] at h
      obtain ⟨hrwa, hrwb⟩ := range_bounds hr1
      obtain ⟨hrha, hrhb⟩ := range_bounds hr2
      obtain ⟨hxa, hxb⟩ := roll_dice_one_bounds hr3
      obtain ⟨hya, hyb⟩ := roll_dice_one_bounds hr4
      have hnew : RoomInGrid m.width m.height
          (Room.new { x := xr - 1, y := yr - 1 } rw1 rh1) :=
        Room_new_in_grid (by omega) (by omega) (by omega)
          (by omega) (by omega) (by omega)
      have hw8 : 8 ≤ m.width := by omega
      have hh8 : 8 ≤ m.height := by omega
      cases har : m.add_room (Room.new { x := xr - 1, y := yr - 1 } rw1 rh1) with
      | none =>
        simp only [har, Option.bind_eq_bind, Option.none_bind] at h
        exact Option.noConfusion h
      | some ma =>
      simp only [har, Option.bind_eq_bind, Option.some_bind] at h
      have hc := hinv
      obtain ⟨hw0, hh0, hsz, hlen, hpair, hgrid, hchain⟩ := hc
      obtain ⟨haw, hah, harooms, halen⟩ :=
        add_room_skel m (Room.new { x := xr - 1, y := yr - 1 } rw1 rh1) ma har
      by_cases hemp : (!ma.rooms.isEmpty) = true
      · rw [if_pos hemp] at h
        have hne : ma.rooms ≠ [] := by
          rw [Bool.not_eq_true'] at hemp
          intro hcon
          rw [hcon] at hemp
          simp at hemp
        obtain ⟨mb, rng5, prev, hlink, hlast, hbw, hbh, hbrooms, hblen, hbmono, hL⟩ :=
          link_rooms_inv ma (Room.new { x := xr - 1, y := yr - 1 } rw1 rh1) rng4
            (by rw [haw]; omega) (by rw [hah]; omega)
            (by rw [haw, hah]; exact hsz)
            (by rw [halen, haw, hah]; exact hlen)
            (by rw [harooms, haw, hah]; exact hgrid)
            (by rw [haw, hah]; exact hnew)
            hne
        simp only [hlink, Option.bind_eq_bind, Option.some_bind] at h
        have hstep := accept_step_inv m
          (Room.new { x := xr - 1, y := yr - 1 } rw1 rh1) ma mb hinv hnew hval har
          ⟨hbw, hbh, hbrooms, hblen⟩ hbmono (fun _ => ⟨prev, hlast, hL⟩)
        obtain ⟨hinv2, hw2, hh2⟩ := newLoop_inv n _ rng5 m2 h hstep
        refine ⟨hinv2, ?_, ?_⟩
        · exact hw2.trans (hbw.trans haw)
        · exact hh2.trans (hbh.trans hah)
      · rw [if_neg hemp] at h
        have hempty : ma.rooms = [] := by
          rw [← List.isEmpty_iff]
          cases hq : ma.rooms.isEmpty with
          | true => rfl
          | false => exact absurd (by rw [hq]; rfl) hemp
        have hstep := accept_step_inv m
          (Room.new { x := xr - 1, y := yr - 1 } rw1 rh1) ma ma hinv hnew hval har
          ⟨rfl, rfl, rfl, rfl⟩ (fun _ hf => hf)
          (fun hne => absurd hempty hne)
        obtain ⟨hinv2, hw2, hh2⟩ := newLoop_inv n _ rng4 m2 h hstep
        refine ⟨hinv2, ?_, ?_⟩
        · exact hw2.trans haw
        · exact hh2.trans hah
    · rw [if_neg hval] at h
      exact newLoop_inv n m rng4 m2 h hinv

theorem link_skel_any (ma : Map) (r : Room) (rng : RandomNumberGenerator)
    (mb : Map) (rng5 : RandomNumberGenerator)
    (h : ma.link_rooms_with_tunnels r rng = some (mb, rng5)) :
    mb.width = ma.width ∧ mb.height = ma.height ∧ mb.rooms = ma.rooms ∧
    mb.tiles.length = ma.tiles.length := by
  unfold Map.link_rooms_with_tunnels at h
  cases hlast : ma.rooms.getLast? with
  | none =>
    rw [hlast] at h
    exact Option.noConfusion h
  | some prev =>
    simp only [hlast, Option.bind_eq_bind, Option.some_bind] at h
    cases hr : rng.range 0 2 with
    | none =>
      simp only [hr, Option.bind_eq_bind, Option.none_bind] at h
      exact Option.noConfusion h
    | some vr =>
      obtain ⟨coin, rng1⟩ := vr
      simp only [hr, Option.bind_eq_bind, Option.some_bind] at h
      by_cases hcoin : (coin == 1) = true
      · rw [if_pos hcoin] at h
        have h2 := Option.some.inj h
        rw [Prod.mk.injEq] at h2
        rw [← h2.1]
        refine ⟨rfl, rfl, rfl, ?_⟩
        rw [(add_vertical_tunnel_skel _ _ _ _).2.2.2,
          (add_horizontal_tunnel_skel _ _ _ _).2.2.2]
      · rw [if_neg hcoin] at h
        have h2 := Option.some.inj h
        rw [Prod.mk.injEq] at h2
        rw [← h2.1]
        refine ⟨rfl, rfl, rfl, ?_⟩
        rw [(add_horizontal_tunnel_skel _ _ _ _).2.2.2,
          (add_vertical_tunnel_skel _ _ _ _).2.2.2]

theorem newLoop_basic :
    ∀ (n : Nat) (m : Map) (rng : RandomNumberGenerator) (m2 : Map),
      Map.newLoop n m rng = some m2 →
      (m2.width = m.width ∧ m2.height = m.height ∧
        m2.tiles.length = m.tiles.length) ∧
      (m.rooms.Pairwise (fun a b => a.intersect b = false) →
        m2.rooms.Pairwise (fun a b => a.intersect b = false))
  | 0, m, rng, m2, h => by
    unfold Map.newLoop at h
    have h2 := Option.some.inj h
    rw [← h2]
    exact ⟨⟨rfl, rfl, rfl⟩, fun hp => hp⟩
  | n + 1, m, rng, m2, h => by
    unfold Map.newLoop at h
    cases hr1 : rng.range 6 10 with
    | none =>
      rw [hr1] at h
      exact Option.noConfusion h
    | some vr1 =>
    obtain ⟨rw1, rng1⟩ := vr1
    simp only [hr1, Option.bind_eq_bind, Option.some_bind] at h
    cases hr2 : rng1.range 6 10 with
    | none =>
      simp only [hr2, Option.bind_eq_bind, Option.none_bind] at h
      exact Option.noConfusion h
    | some vr2 =>
    obtain ⟨rh1, rng2⟩ := vr2
    simp only [hr2, Option.bind_eq_bind, Option.some_bind] at h
    cases hr3 : rng2.roll_dice 1 (m.width - rw1 - 1) with
    | none =>
      simp only [hr3, Option.bind_eq_bind, Option.none_bind] at h
      exact Option.noConfusion h
    | some vr3 =>
    obtain ⟨xr, rng3⟩ := vr3
    simp only [hr3, Option.bind_eq_bind, Option.some_bind] at h
    cases hr4 : rng3.roll_dice 1 (m.height - rh1 - 1) with
    | none =>
      simp only [hr4, Option.bind_eq_bind, Option.none_bind] at h
      exact Option.noConfusion h
    | some vr4 =>
    obtain ⟨yr, rng4⟩ := vr4
    simp only [hr4, Option.bind_eq_bind, Option.some_bind] at h
    by_cases hval : m.is_placement_valid
        (Room.new { x := xr - 1, y := yr - 1 } rw1 rh1) = true
    · rw [if_pos hval] at h
      cases har : m.add_room (Room.new { x := xr - 1, y := yr - 1 } rw1 rh1) with
      | none =>
        simp only [har, Option.bind_eq_bind, Option.none_bind] at h
        exact Option.noConfusion h
      | some ma =>
      simp only [har, Option.bind_eq_bind, Option.some_bind] at h
      obtain ⟨haw, hah, harooms, halen⟩ :=
        add_room_skel m (Room.new { x := xr - 1, y := yr - 1 } rw1 rh1) ma har
      by_cases hemp : (!ma.rooms.isEmpty) = true
      · rw [if_pos hemp] at h
        cases hlink : ma.link_rooms_with_tunnels
            (Room.new { x := xr - 1, y := yr - 1 } rw1 rh1) rng4 with
        | none =>
          simp only [hlink, Option.bind_eq_bind, Option.none_bind] at h
          exact Option.noConfusion h
        | some vl =>
        obtain ⟨mb, rng5⟩ := vl
        simp only [hlink, Option.bind_eq_bind, Option.some_bind] at h
        obtain ⟨hbw, hbh, hbrooms, hblen⟩ := link_skel_any ma _ rng4 mb rng5 hlink
        obtain ⟨⟨h2w, h2h, h2len⟩, h2pair⟩ := newLoop_basic n _ rng5 m2 h
        constructor
        · exact ⟨h2w.trans (hbw.trans haw), h2h.trans (hbh.trans hah),
            h2len.trans (hblen.trans halen)⟩
        · intro hp
          refine h2pair ?_
          show (mb.rooms ++ [Room.new { x := xr - 1, y := yr - 1 } rw1 rh1]).Pairwise _
          rw [hbrooms, harooms, List.pairwise_append]
          refine ⟨hp, List.pairwise_singleton _ _, ?_⟩
          intro a ha b hb
          rw [List.mem_singleton] at hb
          rw [hb, intersect_symm]
          exact (placement_valid_iff m _).mp hval a ha
      · rw [if_neg hemp] at h
        obtain ⟨⟨h2w, h2h, h2len⟩, h2pair⟩ := newLoop_basic n _ rng4 m2 h
        constructor
        · exact ⟨h2w.trans haw, h2h.trans hah, h2len.trans halen⟩
        · intro hp
          refine h2pair ?_
          show (ma.rooms ++ [Room.new { x := xr - 1, y := yr - 1 } rw1 rh1]).Pairwise _
          rw [harooms, List.pairwise_append]
          refine ⟨hp, List.pairwise_singleton _ _, ?_⟩
          intro a ha b hb
          rw [List.mem_singleton] at hb
          rw [hb, intersect_symm]
          exact (placement_valid_iff m _).mp hval a ha
    · rw [if_neg hval] at h
      exact newLoop_basic n m rng4 m2 h

theorem newLoop_total :
    ∀ (n : Nat) (m : Map) (rng : RandomNumberGenerator),
      MapInv m → 11 ≤ m.width → 11 ≤ m.height →
      ∃ m2, Map.newLoop n m rng = some m2
  | 0, m, _, _, _, _ => ⟨m, rfl⟩
  | n + 1, m, rng, hinv, hwB, hhB => by
    have hc := hinv
    obtain ⟨hw0, hh0, hsz, hlen, hpair, hgrid, hchain⟩ := hc
    obtain ⟨rw1, rng1, hr1⟩ := range_total rng (show (6 : Int) < 10 by norm_num)
    obtain ⟨hrwa, hrwb⟩ := range_bounds hr1
    obtain ⟨rh1, rng2, hr2⟩ := range_total rng1 (show (6 : Int) < 10 by norm_num)
    obtain ⟨hrha, hrhb⟩ := range_bounds hr2
    obtain ⟨xr, rng3, hr3⟩ :=
      roll_dice_one_total rng2 (show (1 : Int) ≤ m.width - rw1 - 1 by omega)
    obtain ⟨hxa, hxb⟩ := roll_dice_one_bounds hr3
    obtain ⟨yr, rng4, hr4⟩ :=
      roll_dice_one_total rng3 (show (1 : Int) ≤ m.height - rh1 - 1 by omega)
    obtain ⟨hya, hyb⟩ := roll_dice_one_bounds hr4
    unfold Map.newLoop
    simp only [hr1, hr2, hr3, hr4, Option.bind_eq_bind, Option.some_bind]
    by_cases hval : m.is_placement_valid
        (Room.new { x := xr - 1, y := yr - 1 } rw1 rh1) = true
    · rw [if_pos hval]
      have hnew : RoomInGrid m.width m.height
          (Room.new { x := xr - 1, y := yr - 1 } rw1 rh1) :=
        Room_new_in_grid (by omega) (by omega) (by omega)
          (by omega) (by omega) (by omega)
      obtain ⟨ma, har⟩ := add_room_total m
        (Room.new { x := xr - 1, y := yr - 1 } rw1 rh1)
        (by omega) (by omega) hsz hlen
        (by show (0 : Int) ≤ xr - 1; omega)
        (by show xr - 1 + rw1 - 1 < m.width; omega)
        (by show (0 : Int) ≤ yr - 1; omega)
        (by show yr - 1 + rh1 - 1 < m.height; omega)
      simp only [har, Option.bind_eq_bind, Option.some_bind]
      obtain ⟨haw, hah, harooms, halen⟩ :=
        add_room_skel m (Room.new { x := xr - 1, y := yr - 1 } rw1 rh1) ma har
      by_cases hemp : (!ma.rooms.isEmpty) = true
      · rw [if_pos hemp]
        have hne : ma.rooms ≠ [] := by
          rw [Bool.not_eq_true'] at hemp
          intro hcon
          rw [hcon] at hemp
          simp at hemp
        obtain ⟨mb, rng5, prev, hlink, hlast, hbw, hbh, hbrooms, hblen, hbmono, hL⟩ :=
          link_rooms_inv ma (Room.new { x := xr - 1, y := yr - 1 } rw1 rh1) rng4
            (by rw [haw]; omega) (by rw [hah]; omega)
            (by rw [haw, hah]; exact hsz)
            (by rw [halen, haw, hah]; exact hlen)
            (by rw [harooms, haw, hah]; exact hgrid)
            (by rw [haw, hah]; exact hnew)
            hne
        simp only [hlink, Option.bind_eq_bind, Option.some_bind]
        have hstep := accept_step_inv m
          (Room.new { x := xr - 1, y := yr - 1 } rw1 rh1) ma mb hinv hnew hval har
          ⟨hbw, hbh, hbrooms, hblen⟩ hbmono (fun _ => ⟨prev, hlast, hL⟩)
        exact newLoop_total n _ rng5 hstep
          (by show 11 ≤ mb.width; rw [hbw, haw]; exact hwB)
          (by show 11 ≤ mb.height; rw [hbh, hah]; exact hhB)
      · rw [if_neg hemp]
        have hempty : ma.rooms = [] := by
          rw [← List.isEmpty_iff]
          cases hq : ma.rooms.isEmpty with
          | true => rfl
          | false => exact absurd (by rw [hq]; rfl) hemp
        have hstep := accept_step_inv m
          (Room.new { x := xr - 1, y := yr - 1 } rw1 rh1) ma ma hinv hnew hval har
          ⟨rfl, rfl, rfl, rfl⟩ (fun _ hf => hf)
          (fun hne => absurd hempty hne)
        exact newLoop_total n _ rng4 hstep
          (by show 11 ≤ ma.width; rw [haw]; exact hwB)
          (by show 11 ≤ ma.height; rw [hah]; exact hhB)
    · rw [if_neg hval]
      exact newLoop_total n m rng4 hinv hwB hhB

theorem Map_new_init_inv (width height : Int) (hw : 0 ≤ width) (hh : 0 ≤ height)
    (hsz : width * height < 2 ^ 31) :
    MapInv { width := width, height := height,
             tiles := List.replicate (usizeOfInt (wrapI32 (width * height)))
               TileType.Wall,
             rooms := [],
             blocked_tiles := List.replicate (usizeOfInt (wrapI32 (width * height)))
               true,
             entities := List.replicate (usizeOfInt (wrapI32 (width * height))) [] } := by
  have hU : ((USIZE : Nat) : Int) = 2 ^ 64 := by norm_num [USIZE]
  unfold MapInv
  refine ⟨hw, hh, hsz, ?_, List.Pairwise.nil, ?_, List.chain'_nil⟩
  · show (List.replicate _ TileType.Wall).length = _
    have hnn := mul_nonneg hw hh
    rw [List.length_replicate, wrapI32_eq (by omega) hsz,
      usizeOfInt_eq_toNat (by omega) (by omega)]
  · intro room hroom
    exact absurd hroom (List.not_mem_nil room)

/-- C1: for every map returned by `Map::new` (under any random stream), all
pairs of distinct rooms in the rooms list satisfy `intersect == false`. -/
theorem rooms_pairwise_disjoint (width height : Int)
    (rng : RandomNumberGenerator) (m : Map)
    (h : Map.new width height rng = some m) :
    ∀ (i j : Nat) (r1 r2 : Room), i ≠ j →
      m.rooms[i]? = some r1 → m.rooms[j]? = some r2 →
      r1.intersect r2 = false := by
  unfold Map.new at h
  have hpair := (newLoop_basic 30 _ rng m h).2 List.Pairwise.nil
  rw [List.pairwise_iff_getElem] at hpair
  intro i j r1 r2 hij h1 h2
  have hi : i < m.rooms.length := by
    by_contra hcon
    rw [List.getElem?_eq_none (by omega)] at h1
    exact Option.noConfusion h1
  have hj : j < m.rooms.length := by
    by_contra hcon
    rw [List.getElem?_eq_none (by omega)] at h2
    exact Option.noConfusion h2
  rw [List.getElem?_eq_getElem hi] at h1
  rw [List.getElem?_eq_getElem hj] at h2
  injection h1 with h1
  injection h2 with h2
  rcases Nat.lt_or_ge i j with hlt | hge
  · rw [← h1, ← h2]
    exact hpair i j hi hj hlt
  · have hlt2 : j < i := by omega
    rw [← h1, ← h2, intersect_symm]
    exact hpair j i hj hi hlt2

/-- Witness for C1: the two rooms generated on the 20×8 map do not
intersect. -/
theorem rooms_pairwise_disjoint_witness :
    (⟨{ x := 0, y := 0 }, { x := 5, y := 5 }⟩ : Room).intersect
      ⟨{ x := 10, y := 0 }, { x := 15, y := 5 }⟩ = false :=
  rooms_pairwise_disjoint 20 8 rngW mapW (by rfl) 0 1 _ _
    (by decide) (by decide) (by decide)

/-- C3: every `Floor` tile of a map returned by `Map::new` lies at in-bound
coordinates `(x, y)` with `0 ≤ x < width` and `0 ≤ y < height`; and for
dimensions of at least 11 (where every sampled room fits), neither room
carving nor tunnel carving ever writes out of bounds: generation always
completes and returns a map. -/
theorem generated_floors_in_bounds :
    (∀ (width height : Int) (rng : RandomNumberGenerator) (m : Map),
      0 ≤ width → 0 ≤ height → width * height < 2 ^ 31 →
      Map.new width height rng = some m →
      m.tiles.length = (width * height).toNat ∧
      (∀ i : Nat, m.tiles[i]? = some TileType.Floor →
        ∃ x y : Int, 0 ≤ x ∧ x < width ∧ 0 ≤ y ∧ y < height ∧
          i = (y * width + x).toNat)) ∧
    (∀ (width height : Int) (rng : RandomNumberGenerator),
      11 ≤ width → 11 ≤ height → width * height < 2 ^ 31 →
      ∃ m, Map.new width height rng = some m) := by
  have hU : ((USIZE : Nat) : Int) = 2 ^ 64 := by norm_num [USIZE]
  constructor
  · intro width height rng m hw hh hsz h
    unfold Map.new at h
    obtain ⟨⟨h2w, h2h, h2len⟩, _⟩ := newLoop_basic 30 _ rng m h
    have hlen : m.tiles.length = (width * height).toNat := by
      have hnn := mul_nonneg hw hh
      rw [h2len]
      show (List.replicate _ TileType.Wall).length = _
      rw [List.length_replicate, wrapI32_eq (by omega) hsz,
        usizeOfInt_eq_toNat (by omega) (by omega)]
    refine ⟨hlen, ?_⟩
    intro i hf
    have hi : i < m.tiles.length := by
      by_contra hcon
      rw [List.getElem?_eq_none (by omega)] at hf
      exact Option.noConfusion hf
    rw [hlen] at hi
    have hwpos : 0 < width := by
      rcases eq_or_lt_of_le hw with he | hp
      · exfalso
        rw [← he, Int.zero_mul] at hi
        simp at hi
      · exact hp
    have hhpos : 0 < height := by
      rcases eq_or_lt_of_le hh with he | hp
      · exfalso
        rw [← he, Int.mul_zero] at hi
        simp at hi
      · exact hp
    have hiI : (i : Int) < width * height := by
      have h0 : 0 ≤ width * height := mul_nonneg hw hh
      omega
    refine ⟨(i : Int) % width, (i : Int) / width,
      Int.emod_nonneg _ (by omega), Int.emod_lt_of_pos _ hwpos,
      Int.ediv_nonneg (by omega) hw, ?_, ?_⟩
    · rw [Int.ediv_lt_iff_lt_mul hwpos]
      exact hiI.trans_le (le_of_eq (mul_comm _ _))
    · have key := Int.ediv_add_emod (i : Int) width
      rw [mul_comm ((i : Int) / width) width]
      omega
  · intro width height rng hw hh hsz
    unfold Map.new
    exact newLoop_total 30 _ rng (Map_new_init_inv width height (by omega) (by omega) hsz)
      hw hh

/-- Witness for C3 at the generated 20×8 map: the tile list has length 160,
tile 21 is a carved Floor inside the grid, and an 11×11 generation
completes. -/
theorem generated_floors_in_bounds_witness :
    (mapW.tiles.length = ((20 : Int) * 8).toNat ∧
      (mapW.tiles[21]? = some TileType.Floor →
        ∃ x y : Int, 0 ≤ x ∧ x < 20 ∧ 0 ≤ y ∧ y < 8 ∧
          21 = (y * 20 + x).toNat)) ∧
    ∃ m, Map.new 11 11 rngW = some m := by
  constructor
  · have h := generated_floors_in_bounds.1 20 8 rngW mapW (by decide) (by decide)
      (by decide) (by rfl)
    exact ⟨h.1, fun hf => h.2 21 hf⟩
  · exact generated_floors_in_bounds.2 11 11 rngW (by decide) (by decide) (by decide)

/-- C4: in a map returned by `Map::new`, every pair of consecutively
accepted rooms is joined by one L-shaped tunnel — a horizontal run at a
single fixed row over the x-span between the two room centers and a vertical
run at a single fixed column over the y-span, meeting at one of the two
possible corners — and after generation every tile on those two runs is
`Floor`. -/
theorem consecutive_rooms_tunnel_connected (width height : Int)
    (rng : RandomNumberGenerator) (m : Map)
    (hw : 0 ≤ width) (hh : 0 ≤ height) (hsz : width * height < 2 ^ 31)
    (h : Map.new width height rng = some m) :
    ∀ (k : Nat) (r1 r2 : Room),
      m.rooms[k]? = some r1 → m.rooms[k + 1]? = some r2 →
      LConnected m r1.center r2.center := by
  unfold Map.new at h
  obtain ⟨hinv, _, _⟩ :=
    newLoop_inv 30 _ rng m h (Map_new_init_inv width height hw hh hsz)
  obtain ⟨_, _, _, _, _, _, hchain⟩ := hinv
  rw [List.chain'_iff_get] at hchain
  intro k r1 r2 h1 h2
  have hk1 : k + 1 < m.rooms.length := by
    by_contra hcon
    rw [List.getElem?_eq_none (by omega)] at h2
    exact Option.noConfusion h2
  rw [List.getElem?_eq_getElem (by omega)] at h1
  rw [List.getElem?_eq_getElem hk1] at h2
  injection h1 with h1
  injection h2 with h2
  have hc := hchain k (by omega)
  rw [show m.rooms.get ⟨k, by omega⟩ = m.rooms[k] from rfl,
    show m.rooms.get ⟨k + 1, by omega⟩ = m.rooms[k + 1] from rfl] at hc
  rw [← h1, ← h2]
  exact hc

/-- Witness for C4: in the generated 20×8 map, the centers (2,2) and (12,2)
of the two accepted rooms are joined by an L-shaped carved tunnel. -/
theorem consecutive_rooms_tunnel_connected_witness :
    LConnected mapW
      (⟨{ x := 0, y := 0 }, { x := 5, y := 5 }⟩ : Room).center
      (⟨{ x := 10, y := 0 }, { x := 15, y := 5 }⟩ : Room).center :=
  consecutive_rooms_tunnel_connected 20 8 rngW mapW (by decide) (by decide)
    (by decide) (by rfl) 0 _ _ (by decide) (by decide)
